import Mathlib

/-!
Shallow embedding of the two tslint rules of this repository:

* `src/source/rules/noUnusedDeclarationRule.ts`  (declaration-usage tracker)
* `src/source/rules/noUnsafeCallbackScopeRule.ts` (capture-safety classifier)

The rule code is translated function by function.  The external semantic
model (the TypeScript type checker) and the helpers that live in
`src/source/support` (absent from the provided sources) are modelled as
oracles / attributes, each marked `Modelled from the spec:` in its doc
comment.
-/

namespace TslintEtc

/-! ### Declaration-usage tracker (noUnusedDeclarationRule.ts) -/

/-- Stable identifier of a tree node (spec §9: tree nodes are keyed by
identity; we use stable node identifiers). -/
abbrev NId := Nat

/-- A declaration as seen through the semantic model: `getIdentifier`
reads `node["name"]`, which may be absent, hence `Option`. -/
structure UDecl where
  nameId : Option NId
deriving DecidableEq

/-- A resolved symbol.  `symbol.getDeclarations()` may return `undefined`
in the TypeScript API, hence `Option`. -/
structure USymbol where
  declarations : Option (List UDecl)
deriving DecidableEq

/-- Semantic model oracle consumed by the usage tracker (spec §6):
`typeChecker.getSymbolAtLocation` may fail to resolve, and
`tsutils.isReassignmentTarget` is a structural predicate of the host. -/
structure USem where
  getSymbolAtLocation : NId → Option USymbol
  isReassignmentTarget : NId → Bool

/-- The walker's `_identifiers` map: insertion-ordered map from a
declaration's name token to its used flag (JS `Map<ts.Node, boolean>`). -/
abbrev Registry := List (NId × Bool)

/-- `Map.has`. -/
def regHas (r : Registry) (k : NId) : Bool :=
  r.any (fun p => p.1 == k)

/-- In-place update of one entry (the present-key case of `Map.set`). -/
def updKey (j : NId) (b : Bool) (p : NId × Bool) : NId × Bool :=
  if p.1 == j then (j, b) else p

/-- `Map.set`: updates the entry in place when the key is present,
otherwise appends it (JS maps keep insertion order). -/
def regSet (r : Registry) (k : NId) (b : Bool) : Registry :=
  if regHas r k then r.map (updKey k b) else r ++ [(k, b)]

/-- `Map.get`. -/
def regLookup (r : Registry) (k : NId) : Option Bool :=
  (r.find? (fun p => p.1 == k)).map (fun p => p.2)

/-- The `declarations.forEach(...)` body of `Walker.visitIdentifier`:
for each resolved declaration whose name token is already registered
(`isEnforced`), flip its flag to used.  `getIdentifier` reads
`node["name"]`; when absent, `Map.has(undefined)` is false and nothing
happens. -/
def markDeclarations (r : Registry) : List UDecl → Registry
  | [] => r
  | declaration :: rest =>
    let r2 := match declaration.nameId with
              | some identifier =>
                if regHas r identifier then regSet r identifier true else r
              | none => r
    markDeclarations r2 rest

/-- `Walker.visitIdentifier` (noUnusedDeclarationRule.ts lines 75-94).
The source dereferences `typeChecker.getSymbolAtLocation(node)` and the
result of `symbol.getDeclarations()` without a null check; in JS a
missing value there raises a `TypeError`, modelled as `Except.error`. -/
def visitIdentifier (sem : USem) (r : Registry) (node : NId) : Except String Registry :=
  if !(regHas r node) && !(sem.isReassignmentTarget node) then
    match sem.getSymbolAtLocation node with
    | none => Except.error "TypeError: Cannot read property getDeclarations of undefined"
    | some symbol =>
      match symbol.declarations with
      | none => Except.error "TypeError: Cannot read property forEach of undefined"
      | some declarations => Except.ok (markDeclarations r declarations)
  else Except.ok r

/-- `tsutils.forEachDeclaredVariable(node.declarationList, ...)` of
`visitVariableStatement`: register every declared name as unused. -/
def registerAll (r : Registry) : List NId → Registry
  | [] => r
  | n :: ns => registerAll (regSet r n false) ns

/-- The `node.elements.forEach(...)` body of `visitNamedImports`: a
renaming import marks the original (property) name used immediately and
registers the local name as unused. -/
def registerImportElements (r : Registry) : List (Option NId × NId) → Registry
  | [] => r
  | el :: els =>
    let r1 := match el.1 with
              | some propertyName => regSet r propertyName true
              | none => r
    registerImportElements (regSet r1 el.2 false) els

/-- Modelled from the spec: the tslint traversal framework (spec §6)
performs one deterministic pre-order walk per file and invokes the
rule's per-node-kind hooks.  A file is embedded as the pre-order stream
of events those hooks receive; a declaration hook precedes the
identifier visits of the declaration's own subtree (registration
happens before the walker descends into children). -/
inductive UEvent where
  | classDeclHook (nameId : NId) (exported : Bool)
  | enumDeclHook (nameId : NId) (exported : Bool)
  | funcDeclHook (nameId : Option NId) (exported : Bool)
  | varStmtHook (exported : Bool) (declNames : List NId)
  | namedImportsHook (elements : List (Option NId × NId))
  | namespaceImportHook (nameId : NId)
  | identVisit (nameId : NId)
deriving DecidableEq

/-- One event of the pass: the per-node-kind hooks of
`noUnusedDeclarationRule.ts` (`visitClassDeclaration`,
`visitEnumDeclaration`, `visitFunctionDeclaration`,
`visitVariableStatement`, `visitNamedImports`, `visitNamespaceImport`,
`visitIdentifier`). -/
def uStep (sem : USem) (r : Registry) : UEvent → Except String Registry
  | UEvent.classDeclHook nameId exported =>
    Except.ok (if exported then r else regSet r nameId false)
  | UEvent.enumDeclHook nameId exported =>
    Except.ok (if exported then r else regSet r nameId false)
  | UEvent.funcDeclHook name exported =>
    Except.ok
      (match name with
       | some nameId => if exported then r else regSet r nameId false
       | none => r)
  | UEvent.varStmtHook exported declNames =>
    Except.ok (if exported then r else registerAll r declNames)
  | UEvent.namedImportsHook elements =>
    Except.ok (registerImportElements r elements)
  | UEvent.namespaceImportHook nameId => Except.ok (regSet r nameId false)
  | UEvent.identVisit n => visitIdentifier sem r n

/-- Run the pass over the event stream, threading the registry. -/
def uRun (sem : USem) : List UEvent → Registry → Except String Registry
  | [], r => Except.ok r
  | ev :: evs, r =>
    match uStep sem r ev with
    | Except.error e => Except.error e
    | Except.ok r2 => uRun sem evs r2

/-- `Walker.onSourceFileEnd`: every registry entry still unused yields
one violation at that declaration's name token, in insertion order. -/
def violations (r : Registry) : List NId :=
  (r.filter (fun p => !p.2)).map (fun p => p.1)

/-- `Rule.applyWithProgram` for the unused-declaration rule: a fresh
walker (empty registry) runs the whole file, then finalizes. -/
def applyUnused (sem : USem) (file : List UEvent) : Except String (List NId) :=
  match uRun sem file [] with
  | Except.error e => Except.error e
  | Except.ok r => Except.ok (violations r)

/-! ### Capture-safety classifier (noUnsafeCallbackScopeRule.ts) -/

/-- Expression nodes the classifier inspects: the implicit receiver,
plain identifiers, property-access chains, and everything else
(call results, element accesses, parenthesized expressions, ...). -/
inductive CExpr where
  | thisE (id : Nat)
  | identE (id : Nat) (text : String)
  | propAccess (id : Nat) (expression : CExpr) (nameId : Nat) (nameText : String)
  | otherE (id : Nat)
deriving DecidableEq

/-- Node identity. -/
def CExpr.nodeId : CExpr → Nat
  | CExpr.thisE i => i
  | CExpr.identE i _ => i
  | CExpr.propAccess i _ _ _ => i
  | CExpr.otherE i => i

/-- `node.getText()` for the nodes the rule reads text from. -/
def CExpr.getText : CExpr → String
  | CExpr.identE _ t => t
  | CExpr.thisE _ => "this"
  | CExpr.propAccess _ _ _ _ => ""
  | CExpr.otherE _ => ""

/-- Modelled from the spec: `isSelfReference` (§4.1; `isThis` in
src/source/support/util.ts, absent from the sources): true iff the node
denotes the implicit receiver rather than a named identifier. -/
def isThis : CExpr → Bool
  | CExpr.thisE _ => true
  | _ => false

/-- `tsutils.isIdentifier`. -/
def isIdentifierNode : CExpr → Bool
  | CExpr.identE _ _ => true
  | _ => false

/-- What the rule observes about `node.parent` (and, for the
property-access case, `node.parent.parent`): the parent node's kind and
the visited node's position inside it. -/
inductive PKind where
  | propAccessParent (pa : CExpr) (grandIsPropAccess : Bool)
  | qualifiedName
  | callExprParent (nodeIsCallee : Bool)
  | taggedTemplateParent (nodeIsTag : Bool)
  | newExprParent (nodeIsTarget : Bool)
  | typeRefParent
  | instanceofRight
  | otherParent
deriving DecidableEq

/-- `tsutils.isPropertyAccessExpression(node.parent)`. -/
def PKind.isPropertyAccessParent : PKind → Bool
  | PKind.propAccessParent _ _ => true
  | _ => false

/-- `ts.isQualifiedName(node.parent)` — note: any direct child of a
qualified name, left or right segment. -/
def PKind.isQualifiedNameParent : PKind → Bool
  | PKind.qualifiedName => true
  | _ => false

/-- `tsutils.isCallExpression(node.parent) && node === node.parent.expression`. -/
def PKind.isCallCalleePosition : PKind → Bool
  | PKind.callExprParent nodeIsCallee => nodeIsCallee
  | _ => false

/-- `tsutils.isTaggedTemplateExpression(node.parent) && node === node.parent.tag`. -/
def PKind.isTaggedTagPosition : PKind → Bool
  | PKind.taggedTemplateParent nodeIsTag => nodeIsTag
  | _ => false

/-- `tsutils.isNewExpression(node.parent)` — note: any direct child of a
constructor call (target or argument). -/
def PKind.isNewExpressionParent : PKind → Bool
  | PKind.newExprParent _ => true
  | _ => false

/-- `tsutils.isTypeReferenceNode(node.parent)`. -/
def PKind.isTypeReferenceParent : PKind → Bool
  | PKind.typeRefParent => true
  | _ => false

/-- Modelled from the spec: `isConstructorReference` (§4.1;
`isInstanceofCtor` in src/source/support/util.ts, absent from the
sources): true iff the node is the constructor operand of an
`instanceof` runtime-type test. -/
def isInstanceofCtor : PKind → Bool
  | PKind.instanceofRight => true
  | _ => false

/-- A declaration site as the classifier observes it.  `pos`/`endPos`
are the node's textual span.  The Boolean attributes record the
outcomes of the structural predicates applied to the declaration:
`tsutils.isImportSpecifier` / `tsutils.isNamespaceImport` /
`tsutils.hasModifier(..., ReadonlyKeyword)` are host predicates;
`isConstDeclaration` and `isWithinParameterDeclaration` are Modelled
from the spec (§4.1 `isImmutableBinding`, `isParameterBinding`; the
helpers live in src/source/support/util.ts, absent from the sources). -/
structure Decl where
  pos : Int
  endPos : Int
  hasReadonlyModifier : Bool
  isConstDeclaration : Bool
  isWithinParameterDeclaration : Bool
  isImportSpecifier : Bool
  isNamespaceImport : Bool
deriving DecidableEq

/-- Semantic model oracle consumed by the capture rule.
`findDeclaration` is Modelled from the spec (§4.1 `resolveDeclaration`,
in src/source/support/util.ts, absent from the sources): resolve a
reference to its declaration site, `none` on unresolved symbols or
absent declarations.  `isEnumLiteralTypeAt` is
`tsutils.isTypeFlagSet(typeChecker.getTypeAtLocation(node), EnumLiteral)`. -/
structure Sem where
  findDeclaration : Nat → Option Decl
  isEnumLiteralTypeAt : Nat → Bool

/-- A callback literal's textual span (one entry of the ScopeWalker's
callback stack). -/
structure Callback where
  pos : Int
  endPos : Int
deriving DecidableEq

/-- A visited reference node together with what the walker can observe
around it.  `isWithinCallExpressionExpression` is Modelled from the
spec (§4.3 rule 3 "method invocation"; the helper lives in
src/source/support/util.ts, absent from the sources): true iff the node
lies within the callee/tag expression of an enclosing invocation. -/
structure RefSite where
  node : CExpr
  parentKind : PKind
  isWithinCallExpressionExpression : Bool
deriving DecidableEq

/-- Rule configuration with the constructor's defaults
(`allowMethods = true`, `allowParameters = true`, `allowProperties = false`). -/
structure Options where
  allowMethods : Bool
  allowParameters : Bool
  allowProperties : Bool
deriving DecidableEq

/-- Default configuration. -/
def defaultOptions : Options :=
  { allowMethods := true, allowParameters := true, allowProperties := false }

/-- Raw rule options as supplied by the user (every field optional). -/
structure RawOptions where
  allowMethods : Option Bool
  allowParameters : Option Bool
  allowProperties : Option Bool

/-- The `Walker` constructor's option merging (lines 69-83): each field
set if present, otherwise the default. -/
def readOptions : Option RawOptions → Options
  | none => defaultOptions
  | some options =>
    { allowMethods :=
        match options.allowMethods with
        | some b => b
        | none => defaultOptions.allowMethods
      allowParameters :=
        match options.allowParameters with
        | some b => b
        | none => defaultOptions.allowParameters
      allowProperties :=
        match options.allowProperties with
        | some b => b
        | none => defaultOptions.allowProperties }

/-- The regular expression
`/^(Array|BigInt|Date|Intl|JSON|Math|Number|Object|Promise|Proxy|Reflect|String|Symbol|console)$/`
is a fully anchored alternation of literals, so `.test(s)` holds iff
`s` equals one of the alternatives exactly. -/
def knownGlobals : List String :=
  ["Array", "BigInt", "Date", "Intl", "JSON", "Math", "Number", "Object",
   "Promise", "Proxy", "Reflect", "String", "Symbol", "console"]

/-- `knownGlobalRegExp.test`. -/
def knownGlobalRegExpTest (s : String) : Bool :=
  knownGlobals.any (fun g => g == s)

/-- The regular expression `/^[A-Z]/.test(s)`: the first character is an
ASCII uppercase letter. -/
def startsWithUpperCaseTest (s : String) : Bool :=
  match s.data with
  | [] => false
  | c :: _ => decide ('A' ≤ c) && decide (c ≤ 'Z')

/-- `isWithinClosure` (noUnsafeCallbackScopeRule.ts lines 235-240):
the declaration's position lies within the callback's span. -/
def isWithinClosure (declaration : Decl) (callback : Callback) : Bool :=
  decide (declaration.pos ≥ callback.pos) && decide (declaration.pos < callback.endPos)

/-- The `while` loop of `getPropertyAccessExpressionRoot`: descend
through `expression` while it is a property access. -/
def descendPropertyAccess : CExpr → CExpr
  | CExpr.propAccess _ e _ _ => descendPropertyAccess e
  | e => e

/-- `getPropertyAccessExpressionRoot` (lines 223-233): the innermost
expression of the chain if it is `this` or an identifier, else none. -/
def getPropertyAccessExpressionRoot : CExpr → Option CExpr
  | CExpr.propAccess _ e _ _ =>
    let expression := descendPropertyAccess e
    if isThis expression || isIdentifierNode expression then some expression else none
  | _ => none

/-- `isPropertyAccessExpressionLeaf` (lines 242-251): the parent is a
property access, the node is the parent's `name`, and the grandparent
is not itself a property access. -/
def isPropertyAccessExpressionLeaf (nodeId : Nat) (pk : PKind) : Bool :=
  match pk with
  | PKind.propAccessParent pa grandIsPropAccess =>
    (match pa with
     | CExpr.propAccess _ _ nameId _ => nodeId == nameId
     | _ => false)
    && !grandIsPropAccess
  | _ => false

/-- The innermost property-access node of a chain (the parent of the
chain's root expression). -/
def innermostPropertyAccess : CExpr → CExpr
  | CExpr.propAccess i e nId nT =>
    match e with
    | CExpr.propAccess j f mId mT => innermostPropertyAccess (CExpr.propAccess j f mId mT)
    | _ => CExpr.propAccess i e nId nT
  | e => e

/-- Parent description of a chain's root node: its parent is the
innermost property access of the chain; that node's own parent is a
property access exactly when the chain has more than one step. -/
def chainRootParentKind : CExpr → PKind
  | CExpr.propAccess i e nId nT =>
    match e with
    | CExpr.propAccess j f mId mT =>
      PKind.propAccessParent (innermostPropertyAccess (CExpr.propAccess j f mId mT)) true
    | _ => PKind.propAccessParent (CExpr.propAccess i e nId nT) false
  | e => PKind.propAccessParent e false

/-- `Walker.isUnsafeRoot` (lines 162-220): the root-safety test.
Returns the node to flag, or `none` for Safe.  The parent checks are
read through the `PKind` predicates above. -/
def isUnsafeRoot (o : Options) (sem : Sem) (node : CExpr) (pk : PKind)
    (callback : Callback) : Option CExpr :=
  if pk.isQualifiedNameParent then none
  else if isInstanceofCtor pk then none
  else
    match sem.findDeclaration node.nodeId with
    | none => none
    | some declaration =>
      if isWithinClosure declaration callback then none
      else if o.allowParameters && declaration.isWithinParameterDeclaration then none
      else if pk.isCallCalleePosition then none
      else if pk.isTaggedTagPosition then none
      else if pk.isNewExpressionParent then none
      else if pk.isTypeReferenceParent then none
      else if declaration.isConstDeclaration then none
      else if declaration.isImportSpecifier then none
      else if declaration.isNamespaceImport then none
      else some node

/-- `Walker.isUnsafe` (lines 99-160).  `rootCallback` is
`callbackStack[0]` (the outermost, first-pushed callback); the walker
only calls `isUnsafe` while the stack is non-empty, so the read is
hoisted to the caller. -/
def isUnsafe (o : Options) (sem : Sem) (rootCallback : Callback)
    (site : RefSite) : Option CExpr :=
  match site.parentKind with
  | PKind.propAccessParent pa grand =>
    if !(isPropertyAccessExpressionLeaf site.node.nodeId (PKind.propAccessParent pa grand)) then
      none
    else
      match sem.findDeclaration site.node.nodeId with
      | none => none
      | some declaration =>
        if declaration.hasReadonlyModifier then none
        else if sem.isEnumLiteralTypeAt site.node.nodeId then none
        else
          let called := site.isWithinCallExpressionExpression
          match getPropertyAccessExpressionRoot pa with
          | none => none
          | some root =>
            if isThis root then
              (if called then (if o.allowMethods then none else some root)
               else (if o.allowProperties then none else some root))
            else
              let rootText := root.getText
              if knownGlobalRegExpTest rootText then none
              else if startsWithUpperCaseTest rootText then
                (if called then (if o.allowMethods then none else some root)
                 else (if o.allowProperties then none else some root))
              else isUnsafeRoot o sem root (chainRootParentKind pa) rootCallback
  | pk => isUnsafeRoot o sem site.node pk rootCallback

/-- `Walker.visitNode` (lines 86-97): while the callback stack is
non-empty, an identifier or `this` reference is classified and a
failure is recorded at the returned node.  The stack grows at the tail
(`callbackStack[0]` is the first-pushed, outermost context). -/
def visitNodeCheck (o : Options) (sem : Sem) (stack : List Callback)
    (site : RefSite) : List CExpr :=
  match stack with
  | [] => []
  | rootCallback :: _ =>
    if isIdentifierNode site.node || isThis site.node then
      match isUnsafe o sem rootCallback site with
      | some failureNode => [failureNode]
      | none => []
    else []

/-- Modelled from the spec: the ScopeWalker (src/source/support, absent
from the sources; spec §4.2) pushes a callback context on entering a
qualifying literal, walks the descendants with the context visible, and
pops it on leaving. -/
inductive CNode where
  | callbackLiteral (cb : Callback) (children : List CNode)
  | ref (site : RefSite) (children : List CNode)
  | plain (children : List CNode)

mutual

/-- Walk one node of the capture pass, collecting the reported failure
nodes in visit order. -/
def cwalkNode (o : Options) (sem : Sem) (stack : List Callback) : CNode → List CExpr
  | CNode.callbackLiteral cb children => cwalkForest o sem (stack ++ [cb]) children
  | CNode.ref site children =>
    visitNodeCheck o sem stack site ++ cwalkForest o sem stack children
  | CNode.plain children => cwalkForest o sem stack children

/-- Walk a list of siblings in order. -/
def cwalkForest (o : Options) (sem : Sem) (stack : List Callback) : List CNode → List CExpr
  | [] => []
  | n :: ns => cwalkNode o sem stack n ++ cwalkForest o sem stack ns

end

/-- `Rule.applyWithProgram` for the capture rule: a fresh walker (empty
callback stack) walks the file. -/
def applyCapture (o : Options) (sem : Sem) (file : List CNode) : List CExpr :=
  cwalkForest o sem [] file

/-- The sites the walker visits inside one property-access chain, in
visit order, each paired with its observed parent: the chain's
innermost expression (whose parent is the innermost property access),
then the name identifiers from innermost to outermost.  `ctx` records
whether the current property-access node's own parent is a property
access. -/
def chainSites (calledOf : Nat → Bool) (ctx : Bool) : CExpr → List RefSite
  | CExpr.propAccess i e nId nT =>
    (match e with
     | CExpr.propAccess j f mId mT => chainSites calledOf true (CExpr.propAccess j f mId mT)
     | inner =>
       [{ node := inner,
          parentKind := PKind.propAccessParent (CExpr.propAccess i e nId nT) ctx,
          isWithinCallExpressionExpression := calledOf inner.nodeId }])
    ++ [{ node := CExpr.identE nId nT,
          parentKind := PKind.propAccessParent (CExpr.propAccess i e nId nT) ctx,
          isWithinCallExpressionExpression := calledOf nId }]
  | _ => []

/-! ### Auxiliary notions used by the statements -/

/-- Whether a traversal event writes the registry key `k` (registers a
declaration named `k`, or — for a renaming import — marks `k` used). -/
def UEvent.touches (k : NId) : UEvent → Bool
  | UEvent.classDeclHook n e => !e && n == k
  | UEvent.enumDeclHook n e => !e && n == k
  | UEvent.funcDeclHook n e => !e && n == some k
  | UEvent.varStmtHook e ns => !e && ns.contains k
  | UEvent.namedImportsHook els => els.any (fun el => el.1 == some k || el.2 == k)
  | UEvent.namespaceImportHook n => n == k
  | UEvent.identVisit _ => false

/-- The semantic model resolves every identifier to a symbol with a
declaration list (a fully resolved program, spec §5). -/
def ResolutionTotal (sem : USem) : Prop :=
  ∀ m, ∃ s ds, sem.getSymbolAtLocation m = some s ∧ s.declarations = some ds

/-- No reference node other than `k` itself resolves to a declaration
whose name token is `k` ("never referenced elsewhere"). -/
def NeverResolvesTo (sem : USem) (k : NId) : Prop :=
  ∀ m s ds d, m ≠ k → sem.getSymbolAtLocation m = some s →
    s.declarations = some ds → d ∈ ds → d.nameId ≠ some k

/-- The registry's keys are pairwise distinct (tree nodes have unique
identities). -/
def regKeysNodup (r : Registry) : Prop :=
  (r.map Prod.fst).Nodup

/-- The four declaration kinds tracked by the usage rule. -/
inductive DeclTag where
  | funcTag
  | classTag
  | enumTag
  | varTag
deriving DecidableEq

/-- The registration hook event of one tracked declaration of the given
kind, name token and export modifier. -/
def mkDeclHook : DeclTag → NId → Bool → UEvent
  | DeclTag.funcTag, n, e => UEvent.funcDeclHook (some n) e
  | DeclTag.classTag, n, e => UEvent.classDeclHook n e
  | DeclTag.enumTag, n, e => UEvent.enumDeclHook n e
  | DeclTag.varTag, n, e => UEvent.varStmtHook e [n]

/-! ### Concrete inputs used by witnesses and counterexamples -/

/-- A semantic model in which no symbol resolves. -/
def unresolvedUSem : USem :=
  { getSymbolAtLocation := fun _ => none
    isReassignmentTarget := fun _ => false }

/-- A semantic model resolving every identifier to the declaration
whose name token is node 2. -/
def allTo2USem : USem :=
  { getSymbolAtLocation := fun _ => some { declarations := some [{ nameId := some 2 }] }
    isReassignmentTarget := fun _ => false }

/-- A semantic model resolving every identifier to the declaration
whose name token is the identifier itself. -/
def selfUSem : USem :=
  { getSymbolAtLocation := fun m => some { declarations := some [{ nameId := some m }] }
    isReassignmentTarget := fun _ => false }

/-- A mutable outer binding at position 5 (outside `exampleCallback`),
resolved for node 3 only. -/
def outerLetSem : Sem :=
  { findDeclaration := fun n =>
      if n == 3 then
        some { pos := 5, endPos := 8, hasReadonlyModifier := false,
               isConstDeclaration := false, isWithinParameterDeclaration := false,
               isImportSpecifier := false, isNamespaceImport := false }
      else none
    isEnumLiteralTypeAt := fun _ => false }

/-- Every identifier resolves to a `const` binding declared at position
20, inside `exampleCallback`. -/
def innerConstSem : Sem :=
  { findDeclaration := fun _ =>
      some { pos := 20, endPos := 25, hasReadonlyModifier := false,
             isConstDeclaration := true, isWithinParameterDeclaration := false,
             isImportSpecifier := false, isNamespaceImport := false }
    isEnumLiteralTypeAt := fun _ => false }

/-- Every identifier resolves to a readonly class member. -/
def readonlyMemberSem : Sem :=
  { findDeclaration := fun _ =>
      some { pos := 2, endPos := 4, hasReadonlyModifier := true,
             isConstDeclaration := false, isWithinParameterDeclaration := false,
             isImportSpecifier := false, isNamespaceImport := false }
    isEnumLiteralTypeAt := fun _ => false }

/-- A semantic model in which nothing resolves (capture side). -/
def unresolvedSem : Sem :=
  { findDeclaration := fun _ => none
    isEnumLiteralTypeAt := fun _ => false }

/-- A callback literal spanning positions 10 to 50. -/
def exampleCallback : Callback :=
  { pos := 10, endPos := 50 }

/-! ### Registry lemmas -/

theorem updKey_of_eq {j : NId} {p : NId × Bool} (h : p.1 = j) (b : Bool) :
    updKey j b p = (j, b) := by
  simp [updKey, h]

theorem updKey_of_ne {j : NId} {p : NId × Bool} (h : ¬p.1 = j) (b : Bool) :
    updKey j b p = p := by
  simp [updKey, h]

theorem updKey_fst (j : NId) (b : Bool) (p : NId × Bool) :
    (updKey j b p).1 = p.1 := by
  by_cases h : p.1 = j
  · rw [updKey_of_eq h, h]
  · rw [updKey_of_ne h]

theorem regHas_cons (p : NId × Bool) (r : Registry) (k : NId) :
    regHas (p :: r) k = ((p.1 == k) || regHas r k) := by
  simp [regHas]

theorem regLookup_cons (p : NId × Bool) (r : Registry) (k : NId) :
    regLookup (p :: r) k = if p.1 = k then some p.2 else regLookup r k := by
  by_cases h : p.1 = k
  · have hx : (p.1 == k) = true := by simp [h]
    simp [regLookup, List.find?, hx, h]
  · have hx : (p.1 == k) = false := by simp [h]
    simp [regLookup, List.find?, hx, h]

theorem regHas_eq_isSome (r : Registry) (k : NId) :
    regHas r k = (regLookup r k).isSome := by
  induction r with
  | nil => rfl
  | cons p r ih =>
    rw [regHas_cons, regLookup_cons]
    by_cases h : p.1 = k <;> simp [h, ih]

theorem regHas_iff_mem_keys (r : Registry) (k : NId) :
    regHas r k = true ↔ k ∈ r.map Prod.fst := by
  simp [regHas, List.any_eq_true, List.mem_map]

theorem regSet_keys_of_has {r : Registry} {j : NId} (h : regHas r j = true) (b : Bool) :
    (regSet r j b).map Prod.fst = r.map Prod.fst := by
  rw [regSet, if_pos h, List.map_map]
  apply List.map_congr_left
  intro p _
  exact updKey_fst j b p

theorem regLookup_map_upd_self :
    ∀ (r : Registry) (j : NId) (b : Bool), regHas r j = true →
      regLookup (r.map (updKey j b)) j = some b := by
  intro r j b h
  induction r with
  | nil => simp [regHas] at h
  | cons p r ih =>
    rw [regHas_cons] at h
    rw [List.map_cons, regLookup_cons]
    by_cases hpj : p.1 = j
    · rw [updKey_of_eq hpj]
      simp
    · rw [updKey_of_ne hpj, if_neg hpj]
      have hx : (p.1 == j) = false := by simp [hpj]
      exact ih (by simpa [hx] using h)

theorem regLookup_map_upd_ne :
    ∀ (r : Registry) (j k : NId) (b : Bool), j ≠ k →
      regLookup (r.map (updKey j b)) k = regLookup r k := by
  intro r j k b hjk
  induction r with
  | nil => rfl
  | cons p r ih =>
    rw [List.map_cons, regLookup_cons, regLookup_cons]
    by_cases hpj : p.1 = j
    · rw [updKey_of_eq hpj]
      rw [if_neg (by simpa using hjk), if_neg (by rw [hpj]; exact hjk)]
      exact ih
    · rw [updKey_of_ne hpj]
      by_cases hpk : p.1 = k
      · simp [hpk]
      · simp [hpk, ih]

theorem regHas_append_single (r : Registry) (j k : NId) (b : Bool) :
    regHas (r ++ [(j, b)]) k = (regHas r k || (j == k)) := by
  simp [regHas]

theorem regLookup_append_single_self {r : Registry} {j : NId} (h : regHas r j = false)
    (b : Bool) : regLookup (r ++ [(j, b)]) j = some b := by
  induction r with
  | nil => simp [regLookup_cons]
  | cons p r ih =>
    rw [regHas_cons] at h
    have hpj : p.1 ≠ j := by
      intro he
      simp [he] at h
    rw [List.cons_append, regLookup_cons, if_neg hpj]
    exact ih (by simpa [hpj] using h)

theorem regLookup_append_single_ne (r : Registry) {j k : NId} (hjk : j ≠ k) (b : Bool) :
    regLookup (r ++ [(j, b)]) k = regLookup r k := by
  induction r with
  | nil =>
    have hx : (j == k) = false := by simp [hjk]
    simp [regLookup, List.find?, hx]
  | cons p r ih =>
    rw [List.cons_append, regLookup_cons, regLookup_cons]
    by_cases hpk : p.1 = k
    · simp [hpk]
    · simp [hpk, ih]

theorem regHas_regSet (r : Registry) (j k : NId) (b : Bool) :
    regHas (regSet r j b) k = (regHas r k || (j == k)) := by
  by_cases h : regHas r j
  · have hkeys := regSet_keys_of_has h b
    have hiff : regHas (regSet r j b) k = regHas r k := by
      cases hx : regHas r k
      · cases hy : regHas (regSet r j b) k
        · rfl
        · exfalso
          have hmem := (regHas_iff_mem_keys _ _).mp hy
          rw [hkeys, ← regHas_iff_mem_keys] at hmem
          rw [hmem] at hx
          exact Bool.noConfusion hx
      · rw [regHas_iff_mem_keys] at hx ⊢
        rw [hkeys]
        exact hx
    rw [hiff]
    by_cases hjk : j = k
    · subst hjk
      simp [h]
    · simp [hjk]
  · rw [regSet, if_neg h]
    exact regHas_append_single r j k b

theorem regLookup_regSet_self (r : Registry) (j : NId) (b : Bool) :
    regLookup (regSet r j b) j = some b := by
  by_cases h : regHas r j
  · rw [regSet, if_pos h]
    exact regLookup_map_upd_self r j b h
  · rw [regSet, if_neg h]
    exact regLookup_append_single_self (by simpa using h) b

theorem regLookup_regSet_ne (r : Registry) {j k : NId} (hjk : j ≠ k) (b : Bool) :
    regLookup (regSet r j b) k = regLookup r k := by
  by_cases h : regHas r j
  · rw [regSet, if_pos h]
    exact regLookup_map_upd_ne r j k b hjk
  · rw [regSet, if_neg h]
    exact regLookup_append_single_ne r hjk b

theorem regKeysNodup_regSet {r : Registry} (h : regKeysNodup r) (j : NId) (b : Bool) :
    regKeysNodup (regSet r j b) := by
  by_cases hh : regHas r j
  · rw [regKeysNodup, regSet_keys_of_has hh b]
    exact h
  · rw [regKeysNodup, regSet, if_neg hh, List.map_append, List.nodup_append]
    refine ⟨h, List.nodup_singleton j, ?_⟩
    intro a ha hb
    simp only [List.map_cons, List.map_nil, List.mem_singleton] at hb
    subst hb
    have hmem : regHas r a = true := (regHas_iff_mem_keys r a).mpr ha
    rw [hmem] at hh
    exact hh rfl

/-! ### Violation-list lemmas -/

theorem violations_cons (p : NId × Bool) (r : Registry) :
    violations (p :: r) = if p.2 then violations r else p.1 :: violations r := by
  by_cases h : p.2 <;> simp [violations, List.filter_cons, h]

theorem mem_violations_mem_keys {r : Registry} {k : NId} (h : k ∈ violations r) :
    k ∈ r.map Prod.fst := by
  rcases List.mem_map.mp h with ⟨p, hp, hk⟩
  exact List.mem_map.mpr ⟨p, List.mem_of_mem_filter hp, hk⟩

theorem violations_not_mem_of_not_has {r : Registry} {k : NId}
    (h : regHas r k = false) : k ∉ violations r := by
  intro hmem
  have := (regHas_iff_mem_keys r k).mpr (mem_violations_mem_keys hmem)
  rw [this] at h; exact Bool.noConfusion h

theorem violations_count_one {r : Registry} {k : NId} (hnd : regKeysNodup r)
    (h : regLookup r k = some false) : (violations r).count k = 1 := by
  induction r with
  | nil => simp [regLookup] at h
  | cons p r ih =>
    rw [regLookup_cons] at h
    rw [regKeysNodup, List.map_cons, List.nodup_cons] at hnd
    by_cases hpk : p.1 = k
    · rw [if_pos hpk] at h
      have hp2 : p.2 = false := by
        injection h
      rw [violations_cons, hp2, if_neg Bool.false_ne_true, hpk, List.count_cons_self]
      have hnot : k ∉ violations r := by
        intro hmem
        exact (hpk ▸ hnd.1) (mem_violations_mem_keys hmem)
      rw [List.count_eq_zero.mpr hnot]
    · rw [if_neg hpk] at h
      have hcount := ih hnd.2 h
      rw [violations_cons]
      by_cases hp2 : p.2
      · rw [if_pos hp2]
        exact hcount
      · rw [if_neg hp2, List.count_cons_of_ne (fun he => hpk he.symm), hcount]

theorem violations_not_mem_of_true {r : Registry} {k : NId} (hnd : regKeysNodup r)
    (h : regLookup r k = some true) : k ∉ violations r := by
  induction r with
  | nil => simp [violations]
  | cons p r ih =>
    rw [regLookup_cons] at h
    rw [regKeysNodup, List.map_cons, List.nodup_cons] at hnd
    by_cases hpk : p.1 = k
    · rw [if_pos hpk] at h
      have hp2 : p.2 = true := by
        injection h
      rw [violations_cons, hp2, if_pos rfl]
      intro hmem
      exact (hpk ▸ hnd.1) (mem_violations_mem_keys hmem)
    · rw [if_neg hpk] at h
      have hnot := ih hnd.2 h
      rw [violations_cons]
      by_cases hp2 : p.2
      · rw [if_pos hp2]
        exact hnot
      · rw [if_neg hp2]
        intro hmem
        rcases List.mem_cons.mp hmem with hc | hc
        · exact hpk hc.symm
        · exact hnot hc


/-! ### Fold lemmas -/

theorem regHas_eq_of_keys_eq {r1 r2 : Registry}
    (h : r1.map Prod.fst = r2.map Prod.fst) (k : NId) :
    regHas r1 k = regHas r2 k := by
  cases hx : regHas r2 k
  · cases hy : regHas r1 k
    · rfl
    · exfalso
      have hm := (regHas_iff_mem_keys _ _).mp hy
      rw [h] at hm
      rw [(regHas_iff_mem_keys _ _).mpr hm] at hx
      exact Bool.noConfusion hx
  · exact (regHas_iff_mem_keys _ _).mpr (h ▸ (regHas_iff_mem_keys _ _).mp hx)

theorem lookup_none_eq_of_not_has {r1 r2 : Registry} {k : NId}
    (h1 : regHas r1 k = false) (h2 : regHas r2 k = false) :
    regLookup r1 k = regLookup r2 k := by
  rw [regHas_eq_isSome] at h1 h2
  cases hx : regLookup r1 k
  · cases hy : regLookup r2 k
    · rfl
    · rw [hy] at h2
      simp at h2
  · rw [hx] at h1
    simp at h1

theorem markDeclarations_keys :
    ∀ (ds : List UDecl) (r : Registry),
      (markDeclarations r ds).map Prod.fst = r.map Prod.fst := by
  intro ds
  induction ds with
  | nil =>
    intro r
    rfl
  | cons d rest ih =>
    intro r
    cases hd : d.nameId with
    | none =>
      simp only [markDeclarations, hd]
      exact ih r
    | some identifier =>
      simp only [markDeclarations, hd]
      by_cases hh : regHas r identifier
      · rw [if_pos hh, ih, regSet_keys_of_has hh]
      · rw [if_neg hh]
        exact ih r

theorem markDeclarations_regHas (ds : List UDecl) (r : Registry) (k : NId) :
    regHas (markDeclarations r ds) k = regHas r k :=
  regHas_eq_of_keys_eq (markDeclarations_keys ds r) k

theorem markDeclarations_nodup (ds : List UDecl) {r : Registry} (h : regKeysNodup r) :
    regKeysNodup (markDeclarations r ds) := by
  rw [regKeysNodup, markDeclarations_keys]
  exact h

theorem markDeclarations_lookup_frame :
    ∀ (ds : List UDecl) (r : Registry) (k : NId),
      (∀ d ∈ ds, d.nameId ≠ some k) →
      regLookup (markDeclarations r ds) k = regLookup r k := by
  intro ds
  induction ds with
  | nil =>
    intro r k _
    rfl
  | cons d rest ih =>
    intro r k hav
    have hrest : ∀ d2 ∈ rest, d2.nameId ≠ some k :=
      fun d2 hd2 => hav d2 (List.mem_cons_of_mem _ hd2)
    cases hd : d.nameId with
    | none =>
      simp only [markDeclarations, hd]
      exact ih r k hrest
    | some identifier =>
      have hik : identifier ≠ k := by
        intro he
        exact hav d (List.mem_cons_self d rest) (by rw [hd, he])
      simp only [markDeclarations, hd]
      by_cases hh : regHas r identifier
      · rw [if_pos hh, ih _ _ hrest, regLookup_regSet_ne r hik]
      · rw [if_neg hh]
        exact ih r k hrest

theorem markDeclarations_lookup_of_not_has (ds : List UDecl) {r : Registry} {k : NId}
    (h : regHas r k = false) :
    regLookup (markDeclarations r ds) k = regLookup r k := by
  have h2 : regHas (markDeclarations r ds) k = false := by
    rw [markDeclarations_regHas, h]
  exact lookup_none_eq_of_not_has h2 h

theorem markDeclarations_true_absorb :
    ∀ (ds : List UDecl) (r : Registry) (k : NId),
      regLookup r k = some true →
      regLookup (markDeclarations r ds) k = some true := by
  intro ds
  induction ds with
  | nil =>
    intro r k h
    exact h
  | cons d rest ih =>
    intro r k h
    cases hd : d.nameId with
    | none =>
      simp only [markDeclarations, hd]
      exact ih r k h
    | some identifier =>
      simp only [markDeclarations, hd]
      by_cases hh : regHas r identifier
      · rw [if_pos hh]
        apply ih
        by_cases hik : identifier = k
        · subst hik
          rw [regLookup_regSet_self]
        · rw [regLookup_regSet_ne r hik]
          exact h
      · rw [if_neg hh]
        exact ih r k h

theorem markDeclarations_marks :
    ∀ (ds : List UDecl) (r : Registry) (k : NId),
      regHas r k = true → (∃ d ∈ ds, d.nameId = some k) →
      regLookup (markDeclarations r ds) k = some true := by
  intro ds
  induction ds with
  | nil =>
    intro r k _ hex
    simp at hex
  | cons d rest ih =>
    intro r k hhas hex
    cases hd : d.nameId with
    | none =>
      simp only [markDeclarations, hd]
      rcases hex with ⟨d2, hmem, hname⟩
      rcases List.mem_cons.mp hmem with he | he
      · subst he
        rw [hd] at hname
        exact Option.noConfusion hname
      · exact ih r k hhas ⟨d2, he, hname⟩
    | some identifier =>
      simp only [markDeclarations, hd]
      by_cases hik : identifier = k
      · subst hik
        rw [if_pos hhas]
        exact markDeclarations_true_absorb rest _ _ (regLookup_regSet_self r _ true)
      · rcases hex with ⟨d2, hmem, hname⟩
        rcases List.mem_cons.mp hmem with he | he
        · subst he
          rw [hd] at hname
          injection hname with h3
          exact absurd h3 hik
        · by_cases hh : regHas r identifier
          · rw [if_pos hh]
            refine ih _ _ ?_ ⟨d2, he, hname⟩
            rw [regHas_regSet, hhas]
            rfl
          · rw [if_neg hh]
            exact ih r k hhas ⟨d2, he, hname⟩

theorem registerAll_regHas_frame :
    ∀ (ns : List NId) (r : Registry) (k : NId), ns.contains k = false →
      regHas (registerAll r ns) k = regHas r k := by
  intro ns
  induction ns with
  | nil =>
    intro r k _
    rfl
  | cons n rest ih =>
    intro r k hc
    simp only [List.contains_cons, Bool.or_eq_false_iff] at hc
    have hkn : k ≠ n := by simpa using hc.1
    have hnk : (n == k) = false := beq_eq_false_iff_ne.mpr (Ne.symm hkn)
    rw [registerAll, ih _ _ hc.2, regHas_regSet, hnk, Bool.or_false]

theorem registerAll_lookup_frame :
    ∀ (ns : List NId) (r : Registry) (k : NId), ns.contains k = false →
      regLookup (registerAll r ns) k = regLookup r k := by
  intro ns
  induction ns with
  | nil =>
    intro r k _
    rfl
  | cons n rest ih =>
    intro r k hc
    simp only [List.contains_cons, Bool.or_eq_false_iff] at hc
    have hkn : k ≠ n := by simpa using hc.1
    rw [registerAll, ih _ _ hc.2, regLookup_regSet_ne r (Ne.symm hkn)]

theorem registerAll_nodup :
    ∀ (ns : List NId) (r : Registry), regKeysNodup r → regKeysNodup (registerAll r ns) := by
  intro ns
  induction ns with
  | nil =>
    intro r h
    exact h
  | cons n rest ih =>
    intro r h
    exact ih _ (regKeysNodup_regSet h n false)

theorem registerImportElements_regHas_frame :
    ∀ (els : List (Option NId × NId)) (r : Registry) (k : NId),
      els.any (fun el => el.1 == some k || el.2 == k) = false →
      regHas (registerImportElements r els) k = regHas r k := by
  intro els
  induction els with
  | nil =>
    intro r k _
    rfl
  | cons el rest ih =>
    intro r k hc
    simp only [List.any_cons, Bool.or_eq_false_iff] at hc
    have h1 : (el.1 == some k) = false := hc.1.1
    have h2 : (el.2 == k) = false := hc.1.2
    rw [registerImportElements, ih _ _ hc.2]
    cases hm : el.1 with
    | none =>
      simp only [hm]
      rw [regHas_regSet, h2, Bool.or_false]
    | some propertyName =>
      simp only [hm]
      have hp : (propertyName == k) = false := by
        cases hx : propertyName == k
        · rfl
        · rw [hm] at h1
          have : propertyName = k := by simpa using hx
          rw [this] at h1
          simp at h1
      rw [regHas_regSet, h2, Bool.or_false, regHas_regSet, hp, Bool.or_false]

theorem registerImportElements_lookup_frame :
    ∀ (els : List (Option NId × NId)) (r : Registry) (k : NId),
      els.any (fun el => el.1 == some k || el.2 == k) = false →
      regLookup (registerImportElements r els) k = regLookup r k := by
  intro els
  induction els with
  | nil =>
    intro r k _
    rfl
  | cons el rest ih =>
    intro r k hc
    simp only [List.any_cons, Bool.or_eq_false_iff] at hc
    have h2 : el.2 ≠ k := by
      intro he
      rw [he] at hc
      have := hc.1.2
      simp at this
    rw [registerImportElements, ih _ _ hc.2]
    cases hm : el.1 with
    | none =>
      simp only [hm]
      rw [regLookup_regSet_ne _ h2]
    | some propertyName =>
      simp only [hm]
      have hp : propertyName ≠ k := by
        intro he
        rw [hm, he] at hc
        have := hc.1.1
        simp at this
      rw [regLookup_regSet_ne _ h2, regLookup_regSet_ne _ hp]

theorem registerImportElements_nodup :
    ∀ (els : List (Option NId × NId)) (r : Registry),
      regKeysNodup r → regKeysNodup (registerImportElements r els) := by
  intro els
  induction els with
  | nil =>
    intro r h
    exact h
  | cons el rest ih =>
    intro r h
    rw [registerImportElements]
    cases hm : el.1 with
    | none =>
      simp only
      exact ih _ (regKeysNodup_regSet h el.2 false)
    | some propertyName =>
      simp only [hm]
      exact ih _ (regKeysNodup_regSet (regKeysNodup_regSet h propertyName true) el.2 false)


/-! ### Step and run lemmas -/

theorem uStep_ok {sem : USem} (Hres : ResolutionTotal sem) (r : Registry) (ev : UEvent) :
    ∃ r2, uStep sem r ev = Except.ok r2 := by
  cases ev with
  | identVisit n =>
    rw [uStep, visitIdentifier]
    by_cases hg : (!(regHas r n) && !(sem.isReassignmentTarget n)) = true
    · rw [if_pos hg]
      rcases Hres n with ⟨s, ds, hs, hds⟩
      rw [hs]
      dsimp only
      rw [hds]
      exact ⟨_, rfl⟩
    · rw [if_neg hg]
      exact ⟨r, rfl⟩
  | classDeclHook n e => exact ⟨_, rfl⟩
  | enumDeclHook n e => exact ⟨_, rfl⟩
  | funcDeclHook n e => exact ⟨_, rfl⟩
  | varStmtHook e ns => exact ⟨_, rfl⟩
  | namedImportsHook els => exact ⟨_, rfl⟩
  | namespaceImportHook n => exact ⟨_, rfl⟩

theorem visitIdentifier_cases {sem : USem} {r r2 : Registry} {n : NId}
    (h : visitIdentifier sem r n = Except.ok r2) :
    r2 = r ∨ ∃ s ds, sem.getSymbolAtLocation n = some s ∧ s.declarations = some ds ∧
      (!(regHas r n) && !(sem.isReassignmentTarget n)) = true ∧
      r2 = markDeclarations r ds := by
  rw [visitIdentifier] at h
  by_cases hg : (!(regHas r n) && !(sem.isReassignmentTarget n)) = true
  · rw [if_pos hg] at h
    cases hs : sem.getSymbolAtLocation n with
    | none =>
      rw [hs] at h
      exact Except.noConfusion h
    | some s =>
      rw [hs] at h
      dsimp only at h
      cases hds : s.declarations with
      | none =>
        rw [hds] at h
        exact Except.noConfusion h
      | some ds =>
        rw [hds] at h
        dsimp only at h
        injection h with h3
        exact Or.inr ⟨s, ds, rfl, hds, hg, h3.symm⟩
  · rw [if_neg hg] at h
    injection h with h3
    exact Or.inl h3.symm

theorem uStep_regHas_frame {sem : USem} {r r2 : Registry} {k : NId} {ev : UEvent}
    (h : uStep sem r ev = Except.ok r2) (ht : UEvent.touches k ev = false) :
    regHas r2 k = regHas r k := by
  cases ev with
  | classDeclHook n e =>
    simp only [uStep] at h
    injection h with h2
    subst h2
    rw [UEvent.touches] at ht
    cases e with
    | true => rfl
    | false =>
      simp only [Bool.not_false, Bool.true_and] at ht
      simp only [Bool.false_eq_true, if_false]
      rw [regHas_regSet, ht, Bool.or_false]
  | enumDeclHook n e =>
    simp only [uStep] at h
    injection h with h2
    subst h2
    rw [UEvent.touches] at ht
    cases e with
    | true => rfl
    | false =>
      simp only [Bool.not_false, Bool.true_and] at ht
      simp only [Bool.false_eq_true, if_false]
      rw [regHas_regSet, ht, Bool.or_false]
  | funcDeclHook n e =>
    simp only [uStep] at h
    injection h with h2
    subst h2
    rw [UEvent.touches] at ht
    cases n with
    | none => rfl
    | some nameId =>
      cases e with
      | true => rfl
      | false =>
        simp only [Bool.not_false, Bool.true_and] at ht
        have hne : (nameId == k) = false := by
          cases hx : nameId == k
          · rfl
          · have : nameId = k := by simpa using hx
            rw [this] at ht
            simp at ht
        simp only [Bool.false_eq_true, if_false]
        rw [regHas_regSet, hne, Bool.or_false]
  | varStmtHook e ns =>
    simp only [uStep] at h
    injection h with h2
    subst h2
    rw [UEvent.touches] at ht
    cases e with
    | true => rfl
    | false =>
      simp only [Bool.not_false, Bool.true_and] at ht
      simp only [Bool.false_eq_true, if_false]
      exact registerAll_regHas_frame ns r k ht
  | namedImportsHook els =>
    simp only [uStep] at h
    injection h with h2
    subst h2
    rw [UEvent.touches] at ht
    exact registerImportElements_regHas_frame els r k ht
  | namespaceImportHook n =>
    simp only [uStep] at h
    injection h with h2
    subst h2
    rw [UEvent.touches] at ht
    rw [regHas_regSet, ht, Bool.or_false]
  | identVisit n =>
    simp only [uStep] at h
    rcases visitIdentifier_cases h with h2 | ⟨s, ds, _, _, _, h2⟩
    · rw [h2]
    · rw [h2, markDeclarations_regHas]

theorem uStep_lookup_frame {sem : USem} {k : NId} (Hsem : NeverResolvesTo sem k)
    {r r2 : Registry} {ev : UEvent}
    (h : uStep sem r ev = Except.ok r2) (ht : UEvent.touches k ev = false) :
    regLookup r2 k = regLookup r k := by
  cases ev with
  | classDeclHook n e =>
    simp only [uStep] at h
    injection h with h2
    subst h2
    rw [UEvent.touches] at ht
    cases e with
    | true => rfl
    | false =>
      simp only [Bool.not_false, Bool.true_and] at ht
      have hne : n ≠ k := by simpa using ht
      simp only [Bool.false_eq_true, if_false]
      rw [regLookup_regSet_ne _ hne]
  | enumDeclHook n e =>
    simp only [uStep] at h
    injection h with h2
    subst h2
    rw [UEvent.touches] at ht
    cases e with
    | true => rfl
    | false =>
      simp only [Bool.not_false, Bool.true_and] at ht
      have hne : n ≠ k := by simpa using ht
      simp only [Bool.false_eq_true, if_false]
      rw [regLookup_regSet_ne _ hne]
  | funcDeclHook n e =>
    simp only [uStep] at h
    injection h with h2
    subst h2
    rw [UEvent.touches] at ht
    cases n with
    | none => rfl
    | some nameId =>
      cases e with
      | true => rfl
      | false =>
        simp only [Bool.not_false, Bool.true_and] at ht
        have hne : nameId ≠ k := by
          intro he
          rw [he] at ht
          simp at ht
        simp only [Bool.false_eq_true, if_false]
        rw [regLookup_regSet_ne _ hne]
  | varStmtHook e ns =>
    simp only [uStep] at h
    injection h with h2
    subst h2
    rw [UEvent.touches] at ht
    cases e with
    | true => rfl
    | false =>
      simp only [Bool.not_false, Bool.true_and] at ht
      simp only [Bool.false_eq_true, if_false]
      exact registerAll_lookup_frame ns r k ht
  | namedImportsHook els =>
    simp only [uStep] at h
    injection h with h2
    subst h2
    rw [UEvent.touches] at ht
    exact registerImportElements_lookup_frame els r k ht
  | namespaceImportHook n =>
    simp only [uStep] at h
    injection h with h2
    subst h2
    rw [UEvent.touches] at ht
    have hne : n ≠ k := by simpa using ht
    rw [regLookup_regSet_ne _ hne]
  | identVisit n =>
    simp only [uStep] at h
    rcases visitIdentifier_cases h with h2 | ⟨s, ds, hs, hds, hg, h2⟩
    · rw [h2]
    · subst h2
      by_cases hnk : n = k
      · subst hnk
        have hhas : regHas r n = false := by
          cases hx : regHas r n
          · rfl
          · rw [hx] at hg
            simp at hg
        exact markDeclarations_lookup_of_not_has ds hhas
      · refine markDeclarations_lookup_frame ds r k ?_
        intro d hd
        exact Hsem n s ds d hnk hs hds hd

theorem uStep_true_absorb {sem : USem} {r r2 : Registry} {k : NId} {ev : UEvent}
    (h : uStep sem r ev = Except.ok r2) (ht : UEvent.touches k ev = false)
    (hv : regLookup r k = some true) : regLookup r2 k = some true := by
  cases ev with
  | identVisit n =>
    simp only [uStep] at h
    rcases visitIdentifier_cases h with h2 | ⟨s, ds, _, _, _, h2⟩
    · rw [h2]
      exact hv
    · subst h2
      exact markDeclarations_true_absorb ds r k hv
  | classDeclHook n e =>
    simp only [uStep] at h
    injection h with h2
    subst h2
    rw [UEvent.touches] at ht
    cases e with
    | true => exact hv
    | false =>
      simp only [Bool.not_false, Bool.true_and] at ht
      have hne : n ≠ k := by simpa using ht
      simp only [Bool.false_eq_true, if_false]
      rw [regLookup_regSet_ne _ hne]
      exact hv
  | enumDeclHook n e =>
    simp only [uStep] at h
    injection h with h2
    subst h2
    rw [UEvent.touches] at ht
    cases e with
    | true => exact hv
    | false =>
      simp only [Bool.not_false, Bool.true_and] at ht
      have hne : n ≠ k := by simpa using ht
      simp only [Bool.false_eq_true, if_false]
      rw [regLookup_regSet_ne _ hne]
      exact hv
  | funcDeclHook n e =>
    simp only [uStep] at h
    injection h with h2
    subst h2
    rw [UEvent.touches] at ht
    cases n with
    | none => exact hv
    | some nameId =>
      cases e with
      | true => exact hv
      | false =>
        simp only [Bool.not_false, Bool.true_and] at ht
        have hne : nameId ≠ k := by
          intro he
          rw [he] at ht
          simp at ht
        simp only [Bool.false_eq_true, if_false]
        rw [regLookup_regSet_ne _ hne]
        exact hv
  | varStmtHook e ns =>
    simp only [uStep] at h
    injection h with h2
    subst h2
    rw [UEvent.touches] at ht
    cases e with
    | true => exact hv
    | false =>
      simp only [Bool.not_false, Bool.true_and] at ht
      simp only [Bool.false_eq_true, if_false]
      rw [registerAll_lookup_frame ns r k ht]
      exact hv
  | namedImportsHook els =>
    simp only [uStep] at h
    injection h with h2
    subst h2
    rw [UEvent.touches] at ht
    rw [registerImportElements_lookup_frame els r k ht]
    exact hv
  | namespaceImportHook n =>
    simp only [uStep] at h
    injection h with h2
    subst h2
    rw [UEvent.touches] at ht
    have hne : n ≠ k := by simpa using ht
    rw [regLookup_regSet_ne _ hne]
    exact hv

theorem uStep_nodup {sem : USem} {r r2 : Registry} {ev : UEvent}
    (h : uStep sem r ev = Except.ok r2) (hnd : regKeysNodup r) : regKeysNodup r2 := by
  cases ev with
  | identVisit n =>
    simp only [uStep] at h
    rcases visitIdentifier_cases h with h2 | ⟨s, ds, _, _, _, h2⟩
    · rw [h2]
      exact hnd
    · subst h2
      exact markDeclarations_nodup ds hnd
  | classDeclHook n e =>
    simp only [uStep] at h
    injection h with h2
    subst h2
    cases e with
    | true => exact hnd
    | false =>
      simp only [Bool.false_eq_true, if_false]
      exact regKeysNodup_regSet hnd n false
  | enumDeclHook n e =>
    simp only [uStep] at h
    injection h with h2
    subst h2
    cases e with
    | true => exact hnd
    | false =>
      simp only [Bool.false_eq_true, if_false]
      exact regKeysNodup_regSet hnd n false
  | funcDeclHook n e =>
    simp only [uStep] at h
    injection h with h2
    subst h2
    cases n with
    | none => exact hnd
    | some nameId =>
      cases e with
      | true => exact hnd
      | false =>
        simp only [Bool.false_eq_true, if_false]
        exact regKeysNodup_regSet hnd nameId false
  | varStmtHook e ns =>
    simp only [uStep] at h
    injection h with h2
    subst h2
    cases e with
    | true => exact hnd
    | false =>
      simp only [Bool.false_eq_true, if_false]
      exact registerAll_nodup ns r hnd
  | namedImportsHook els =>
    simp only [uStep] at h
    injection h with h2
    subst h2
    exact registerImportElements_nodup els r hnd
  | namespaceImportHook n =>
    simp only [uStep] at h
    injection h with h2
    subst h2
    exact regKeysNodup_regSet hnd n false

theorem uRun_append (sem : USem) :
    ∀ (xs ys : List UEvent) (r : Registry),
      uRun sem (xs ++ ys) r =
        match uRun sem xs r with
        | Except.ok r2 => uRun sem ys r2
        | Except.error e => Except.error e := by
  intro xs
  induction xs with
  | nil =>
    intro ys r
    rfl
  | cons ev xs ih =>
    intro ys r
    rw [List.cons_append, uRun, uRun]
    cases uStep sem r ev with
    | error e => rfl
    | ok r2 => exact ih ys r2

theorem uRun_ok {sem : USem} (Hres : ResolutionTotal sem) :
    ∀ (evs : List UEvent) (r : Registry), ∃ r2, uRun sem evs r = Except.ok r2 := by
  intro evs
  induction evs with
  | nil =>
    intro r
    exact ⟨r, rfl⟩
  | cons ev evs ih =>
    intro r
    rcases uStep_ok Hres r ev with ⟨r1, h1⟩
    rcases ih r1 with ⟨r2, h2⟩
    refine ⟨r2, ?_⟩
    rw [uRun, h1]
    exact h2

theorem uRun_regHas_frame {sem : USem} {k : NId} :
    ∀ {evs : List UEvent} {r r2 : Registry},
      uRun sem evs r = Except.ok r2 →
      (∀ ev ∈ evs, UEvent.touches k ev = false) →
      regHas r2 k = regHas r k := by
  intro evs
  induction evs with
  | nil =>
    intro r r2 h _
    injection h with h2
    rw [h2]
  | cons ev evs ih =>
    intro r r2 h ht
    rw [uRun] at h
    cases hs : uStep sem r ev with
    | error e =>
      rw [hs] at h
      exact Except.noConfusion h
    | ok r1 =>
      rw [hs] at h
      rw [ih h (fun e he => ht e (List.mem_cons_of_mem _ he))]
      exact uStep_regHas_frame hs (ht ev (List.mem_cons_self ev evs))

theorem uRun_lookup_frame {sem : USem} {k : NId} (Hsem : NeverResolvesTo sem k) :
    ∀ {evs : List UEvent} {r r2 : Registry},
      uRun sem evs r = Except.ok r2 →
      (∀ ev ∈ evs, UEvent.touches k ev = false) →
      regLookup r2 k = regLookup r k := by
  intro evs
  induction evs with
  | nil =>
    intro r r2 h _
    injection h with h2
    rw [h2]
  | cons ev evs ih =>
    intro r r2 h ht
    rw [uRun] at h
    cases hs : uStep sem r ev with
    | error e =>
      rw [hs] at h
      exact Except.noConfusion h
    | ok r1 =>
      rw [hs] at h
      rw [ih h (fun e he => ht e (List.mem_cons_of_mem _ he))]
      exact uStep_lookup_frame Hsem hs (ht ev (List.mem_cons_self ev evs))

theorem uRun_true_absorb {sem : USem} {k : NId} :
    ∀ {evs : List UEvent} {r r2 : Registry},
      uRun sem evs r = Except.ok r2 →
      (∀ ev ∈ evs, UEvent.touches k ev = false) →
      regLookup r k = some true →
      regLookup r2 k = some true := by
  intro evs
  induction evs with
  | nil =>
    intro r r2 h _ hv
    injection h with h2
    rw [h2] at hv
    exact hv
  | cons ev evs ih =>
    intro r r2 h ht hv
    rw [uRun] at h
    cases hs : uStep sem r ev with
    | error e =>
      rw [hs] at h
      exact Except.noConfusion h
    | ok r1 =>
      rw [hs] at h
      refine ih h (fun e he => ht e (List.mem_cons_of_mem _ he)) ?_
      exact uStep_true_absorb hs (ht ev (List.mem_cons_self ev evs)) hv

theorem uRun_nodup {sem : USem} :
    ∀ {evs : List UEvent} {r r2 : Registry},
      uRun sem evs r = Except.ok r2 → regKeysNodup r → regKeysNodup r2 := by
  intro evs
  induction evs with
  | nil =>
    intro r r2 h hnd
    injection h with h2
    rw [h2] at hnd
    exact hnd
  | cons ev evs ih =>
    intro r r2 h hnd
    rw [uRun] at h
    cases hs : uStep sem r ev with
    | error e =>
      rw [hs] at h
      exact Except.noConfusion h
    | ok r1 =>
      rw [hs] at h
      exact ih h (uStep_nodup hs hnd)


/-! ### Hook equations and the marking lemma -/

theorem uStep_mkDeclHook_nonexported (sem : USem) (r : Registry) (tag : DeclTag) (n : NId) :
    uStep sem r (mkDeclHook tag n false) = Except.ok (regSet r n false) := by
  cases tag <;> rfl

theorem uStep_mkDeclHook_exported (sem : USem) (r : Registry) (tag : DeclTag) (n : NId) :
    uStep sem r (mkDeclHook tag n true) = Except.ok r := by
  cases tag <;> rfl

theorem touches_mkDeclHook (k n : NId) (tag : DeclTag) (e : Bool) :
    UEvent.touches k (mkDeclHook tag n e) = (!e && n == k) := by
  cases tag <;> by_cases h : n = k <;>
    simp [mkDeclHook, UEvent.touches, List.contains_cons, h] <;>
    simp [h, Ne.symm h]

theorem uStep_identVisit_marks {sem : USem} {r : Registry} {m k : NId} {s : USymbol}
    {ds : List UDecl} {d : UDecl}
    (hm : regHas r m = false) (hre : sem.isReassignmentTarget m = false)
    (hs : sem.getSymbolAtLocation m = some s) (hds : s.declarations = some ds)
    (hd : d ∈ ds) (hname : d.nameId = some k) (hk : regHas r k = true) :
    uStep sem r (UEvent.identVisit m) = Except.ok (markDeclarations r ds) ∧
      regLookup (markDeclarations r ds) k = some true := by
  constructor
  · simp only [uStep, visitIdentifier, hm, hre, Bool.not_false, Bool.and_self, if_true]
    rw [hs]
    dsimp only
    rw [hds]
  · exact markDeclarations_marks ds r k hk ⟨d, hd, hname⟩

/-! ### Claim theorems for the usage tracker -/

/-- C1: the claim states that neither analysis lets an exception escape
on unresolved symbols; the capture classifier indeed abstains
(`findDeclaration` returning none yields Safe and no report), but the
unused-declaration tracker dereferences the unresolved symbol:
`visitIdentifier` raises a TypeError on the first identifier whose
symbol does not resolve, aborting the pass instead of abstaining. -/
theorem c1_unresolved_symbol_throws :
    applyUnused unresolvedUSem [UEvent.identVisit 5] =
      Except.error "TypeError: Cannot read property getDeclarations of undefined" ∧
    unresolvedSem.findDeclaration 7 = none ∧
    isUnsafeRoot defaultOptions unresolvedSem (CExpr.identE 7 "x") PKind.otherParent
      exampleCallback = none ∧
    visitNodeCheck defaultOptions unresolvedSem [exampleCallback]
      { node := CExpr.identE 7 "x", parentKind := PKind.otherParent,
        isWithinCallExpressionExpression := false } = [] :=
  ⟨rfl, rfl, rfl, rfl⟩

/-- C2 counterexample: node 1 is a reference (resolving to the
declaration whose name token is node 2) that appears before the
declaration site; the declaration is nevertheless reported unused,
contradicting the claim that a reference anywhere in the file - before
or after the declaration site - marks the declaration used. -/
theorem c2_forward_reference_counterexample :
    allTo2USem.getSymbolAtLocation 1 =
      some { declarations := some [{ nameId := some 2 }] } ∧
    applyUnused allTo2USem
      [UEvent.identVisit 1, UEvent.funcDeclHook (some 2) false, UEvent.identVisit 2] =
      Except.ok [2] :=
  ⟨rfl, rfl⟩

/-- C2 (amended): a reference node visited at or after the
declaration's registration - including within the declaration's own
initializer and including a self-recursive call - sets the registry
entry used = true, so the declaration yields no unused-declaration
violation at finalization. -/
theorem c2_reference_after_registration_marks_used
    (sem : USem) (tag : DeclTag) (n m : NId) (pre mid rest : List UEvent)
    (s : USymbol) (ds : List UDecl) (d : UDecl)
    (Hres : ResolutionTotal sem)
    (hmn : m ≠ n)
    (hpre : ∀ ev ∈ pre, UEvent.touches n ev = false ∧ UEvent.touches m ev = false)
    (hmid : ∀ ev ∈ mid, UEvent.touches n ev = false ∧ UEvent.touches m ev = false)
    (hrest : ∀ ev ∈ rest, UEvent.touches n ev = false)
    (hre : sem.isReassignmentTarget m = false)
    (hs : sem.getSymbolAtLocation m = some s)
    (hds : s.declarations = some ds)
    (hd : d ∈ ds) (hname : d.nameId = some n) :
    ∃ rfin,
      uRun sem (pre ++ mkDeclHook tag n false :: (mid ++ UEvent.identVisit m :: rest)) [] =
        Except.ok rfin ∧
      regLookup rfin n = some true ∧
      applyUnused sem (pre ++ mkDeclHook tag n false :: (mid ++ UEvent.identVisit m :: rest)) =
        Except.ok (violations rfin) ∧
      n ∉ violations rfin := by
  rcases uRun_ok Hres pre [] with ⟨r1, h1⟩
  have hr1m : regHas r1 m = false := by
    rw [uRun_regHas_frame h1 (fun ev he => (hpre ev he).2)]
    rfl
  have hr1nodup : regKeysNodup r1 := uRun_nodup h1 (by simp [regKeysNodup])
  have hhook := uStep_mkDeclHook_nonexported sem r1 tag n
  set r2 := regSet r1 n false with hr2
  have hr2n : regHas r2 n = true := by
    rw [hr2, regHas_regSet]
    simp
  have hr2m : regHas r2 m = false := by
    have hnm : (n == m) = false := beq_eq_false_iff_ne.mpr (Ne.symm hmn)
    rw [hr2, regHas_regSet, hr1m, hnm]
    rfl
  have hr2nodup : regKeysNodup r2 := regKeysNodup_regSet hr1nodup n false
  rcases uRun_ok Hres mid r2 with ⟨r3, h3⟩
  have hr3n : regHas r3 n = true := by
    rw [uRun_regHas_frame h3 (fun ev he => (hmid ev he).1)]
    exact hr2n
  have hr3m : regHas r3 m = false := by
    rw [uRun_regHas_frame h3 (fun ev he => (hmid ev he).2)]
    exact hr2m
  have hr3nodup : regKeysNodup r3 := uRun_nodup h3 hr2nodup
  rcases uStep_identVisit_marks hr3m hre hs hds hd hname hr3n with ⟨hstep4, hlook4⟩
  set r4 := markDeclarations r3 ds with hr4
  have hr4nodup : regKeysNodup r4 := markDeclarations_nodup ds hr3nodup
  rcases uRun_ok Hres rest r4 with ⟨r5, h5⟩
  have hlook5 : regLookup r5 n = some true := uRun_true_absorb h5 hrest hlook4
  have hr5nodup : regKeysNodup r5 := uRun_nodup h5 hr4nodup
  have hrun : uRun sem (pre ++ mkDeclHook tag n false :: (mid ++ UEvent.identVisit m :: rest)) []
      = Except.ok r5 := by
    rw [uRun_append, h1]
    dsimp only
    rw [uRun, hhook]
    dsimp only
    rw [uRun_append, h3]
    dsimp only
    rw [uRun, hstep4]
    dsimp only
    exact h5
  refine ⟨r5, hrun, hlook5, ?_, violations_not_mem_of_true hr5nodup hlook5⟩
  rw [applyUnused, hrun]

/-- C7: in every file in which a non-exported function, class, enum or
variable declaration is never referenced elsewhere, finalization yields
exactly one unused-declaration violation at its name token; exporting
that same declaration (any kind) removes the violation because the
declaration is never inserted into the registry. -/
theorem c7_unused_declaration_single_violation
    (sem : USem) (tag : DeclTag) (n : NId) (pre post : List UEvent)
    (Hres : ResolutionTotal sem) (Hsem : NeverResolvesTo sem n)
    (hpre : ∀ ev ∈ pre, UEvent.touches n ev = false)
    (hpost : ∀ ev ∈ post, UEvent.touches n ev = false) :
    (∃ viols, applyUnused sem (pre ++ mkDeclHook tag n false :: post) = Except.ok viols ∧
      viols.count n = 1) ∧
    (∃ viols, applyUnused sem (pre ++ mkDeclHook tag n true :: post) = Except.ok viols ∧
      n ∉ viols) := by
  constructor
  · rcases uRun_ok Hres pre [] with ⟨r1, h1⟩
    have hr1nodup : regKeysNodup r1 := uRun_nodup h1 (by simp [regKeysNodup])
    have hhook := uStep_mkDeclHook_nonexported sem r1 tag n
    rcases uRun_ok Hres post (regSet r1 n false) with ⟨r3, h3⟩
    have hlook3 : regLookup r3 n = some false := by
      rw [uRun_lookup_frame Hsem h3 hpost, regLookup_regSet_self]
    have hnodup3 : regKeysNodup r3 := uRun_nodup h3 (regKeysNodup_regSet hr1nodup n false)
    have hrun : uRun sem (pre ++ mkDeclHook tag n false :: post) [] = Except.ok r3 := by
      rw [uRun_append, h1]
      dsimp only
      rw [uRun, hhook]
      dsimp only
      exact h3
    refine ⟨violations r3, ?_, violations_count_one hnodup3 hlook3⟩
    rw [applyUnused, hrun]
  · rcases uRun_ok Hres pre [] with ⟨r1, h1⟩
    have hr1has : regHas r1 n = false := by
      rw [uRun_regHas_frame h1 hpre]
      rfl
    have hhook := uStep_mkDeclHook_exported sem r1 tag n
    rcases uRun_ok Hres post r1 with ⟨r3, h3⟩
    have h3has : regHas r3 n = false := by
      rw [uRun_regHas_frame h3 hpost]
      exact hr1has
    have hrun : uRun sem (pre ++ mkDeclHook tag n true :: post) [] = Except.ok r3 := by
      rw [uRun_append, h1]
      dsimp only
      rw [uRun, hhook]
      dsimp only
      exact h3
    refine ⟨violations r3, ?_, violations_not_mem_of_not_has h3has⟩
    rw [applyUnused, hrun]

/-- C8: both passes are deterministic and stateless: each is a pure
function of the tree, the semantic model and the options, started from
an explicitly fresh walker state (empty registry, empty callback
stack), so re-running an analysis over an unmodified tree and symbol
table produces the identical, order-stable violation list. -/
theorem c8_passes_deterministic (usem : USem) (ufile : List UEvent)
    (o : Options) (csem : Sem) (cfile : List CNode) :
    applyUnused usem ufile = applyUnused usem ufile ∧
    applyCapture o csem cfile = applyCapture o csem cfile ∧
    applyUnused usem ufile =
      (match uRun usem ufile [] with
       | Except.error e => Except.error e
       | Except.ok r => Except.ok (violations r)) ∧
    applyCapture o csem cfile = cwalkForest o csem [] cfile :=
  ⟨rfl, rfl, rfl, rfl⟩


/-- C2 witness: function declaration 2 (non-exported), its name visit,
then a body reference (node 3) resolving to it: the entry for node 2
ends used = true and no violation is reported. -/
theorem c2_reference_after_registration_marks_used_witness :
    ∃ rfin,
      uRun allTo2USem
        ([] ++ mkDeclHook DeclTag.funcTag 2 false ::
          ([UEvent.identVisit 2] ++ UEvent.identVisit 3 :: [])) [] = Except.ok rfin ∧
      regLookup rfin 2 = some true ∧
      applyUnused allTo2USem
        ([] ++ mkDeclHook DeclTag.funcTag 2 false ::
          ([UEvent.identVisit 2] ++ UEvent.identVisit 3 :: [])) =
        Except.ok (violations rfin) ∧
      2 ∉ violations rfin :=
  c2_reference_after_registration_marks_used allTo2USem DeclTag.funcTag 2 3
    [] [UEvent.identVisit 2] []
    { declarations := some [{ nameId := some 2 }] } [{ nameId := some 2 }]
    { nameId := some 2 }
    (fun _ => ⟨_, _, rfl, rfl⟩) (by decide)
    (by intro ev he; cases he) (by decide) (by intro ev he; cases he)
    rfl rfl rfl (by simp) rfl

/-- C7 witness: class declaration 2, never referenced elsewhere (every
identifier resolves to itself): exactly one violation when
non-exported, none when exported. -/
theorem c7_unused_declaration_single_violation_witness :
    (∃ viols,
      applyUnused selfUSem ([] ++ mkDeclHook DeclTag.classTag 2 false :: [UEvent.identVisit 2]) =
        Except.ok viols ∧ viols.count 2 = 1) ∧
    (∃ viols,
      applyUnused selfUSem ([] ++ mkDeclHook DeclTag.classTag 2 true :: [UEvent.identVisit 2]) =
        Except.ok viols ∧ 2 ∉ viols) :=
  c7_unused_declaration_single_violation selfUSem DeclTag.classTag 2 [] [UEvent.identVisit 2]
    (fun _ => ⟨_, _, rfl, rfl⟩)
    (by
      intro m s ds d hm hs hds hd
      simp only [selfUSem] at hs
      injection hs with hs2
      subst hs2
      simp only at hds
      injection hds with hds2
      subst hds2
      have hde : d = { nameId := some m } := by simpa using hd
      subst hde
      intro hname
      simp only at hname
      injection hname with h2
      exact hm h2)
    (by intro ev he; cases he) (by decide)


/-! ### Capture-classifier lemmas -/

theorem isUnsafe_bare (o : Options) (sem : Sem) (cb : Callback) (site : RefSite)
    (h : site.parentKind.isPropertyAccessParent = false) :
    isUnsafe o sem cb site = isUnsafeRoot o sem site.node site.parentKind cb := by
  rw [isUnsafe]
  cases hpk : site.parentKind with
  | propAccessParent pa g =>
    rw [hpk, PKind.isPropertyAccessParent] at h
    exact Bool.noConfusion h
  | qualifiedName => rfl
  | callExprParent b => rfl
  | taggedTemplateParent b => rfl
  | newExprParent b => rfl
  | typeRefParent => rfl
  | instanceofRight => rfl
  | otherParent => rfl

theorem isUnsafeRoot_within (o : Options) (sem : Sem) (node : CExpr) (pk : PKind)
    (cb : Callback) (d : Decl)
    (hr : sem.findDeclaration node.nodeId = some d)
    (hw : isWithinClosure d cb = true) :
    isUnsafeRoot o sem node pk cb = none := by
  rw [isUnsafeRoot]
  by_cases h1 : pk.isQualifiedNameParent = true
  · rw [if_pos h1]
  · rw [if_neg h1]
    by_cases h2 : isInstanceofCtor pk = true
    · rw [if_pos h2]
    · rw [if_neg h2, hr]
      dsimp only
      rw [if_pos hw]

theorem isUnsafeRoot_unresolved (o : Options) (sem : Sem) (node : CExpr) (pk : PKind)
    (cb : Callback) (hr : sem.findDeclaration node.nodeId = none) :
    isUnsafeRoot o sem node pk cb = none := by
  rw [isUnsafeRoot]
  by_cases h1 : pk.isQualifiedNameParent = true
  · rw [if_pos h1]
  · rw [if_neg h1]
    by_cases h2 : isInstanceofCtor pk = true
    · rw [if_pos h2]
    · rw [if_neg h2, hr]

theorem visitNodeCheck_of_none (o : Options) (sem : Sem) (cb : Callback)
    (rest : List Callback) (site : RefSite)
    (h : isUnsafe o sem cb site = none) :
    visitNodeCheck o sem (cb :: rest) site = [] := by
  rw [visitNodeCheck]
  by_cases hn : (isIdentifierNode site.node || isThis site.node) = true
  · rw [if_pos hn, h]
  · rw [if_neg hn]

theorem visitNodeCheck_length_le_one (o : Options) (sem : Sem) (stack : List Callback)
    (site : RefSite) : (visitNodeCheck o sem stack site).length ≤ 1 := by
  cases stack with
  | nil => simp [visitNodeCheck]
  | cons cb rest =>
    rw [visitNodeCheck]
    by_cases hn : (isIdentifierNode site.node || isThis site.node) = true
    · rw [if_pos hn]
      cases isUnsafe o sem cb site <;> simp
    · rw [if_neg hn]
      simp

/-! ### Claim theorems for the capture classifier -/

/-- C3: a bare identifier or self reference (no property-access parent)
whose resolved declaration lies within the span of the outermost
(first-pushed) callback on the stack is classified Safe by the
root-safety test, and no violation is reported; a binding declared
inside the callback's own body is therefore never flagged. -/
theorem c3_declaration_inside_outermost_callback_safe
    (o : Options) (sem : Sem) (cb : Callback) (rest : List Callback)
    (site : RefSite) (d : Decl)
    (hBare : site.parentKind.isPropertyAccessParent = false)
    (hResolve : sem.findDeclaration site.node.nodeId = some d)
    (hWithin : isWithinClosure d cb = true) :
    isUnsafe o sem cb site = none ∧
    visitNodeCheck o sem (cb :: rest) site = [] := by
  have hU : isUnsafe o sem cb site = none := by
    rw [isUnsafe_bare o sem cb site hBare]
    exact isUnsafeRoot_within o sem site.node site.parentKind cb d hResolve hWithin
  exact ⟨hU, visitNodeCheck_of_none o sem cb rest site hU⟩

/-- C3 witness (Scenario D): the binding resolves to a declaration at
position 20, inside the callback spanning 10..50: Safe, nothing
reported. -/
theorem c3_declaration_inside_outermost_callback_safe_witness :
    isUnsafe defaultOptions innerConstSem exampleCallback
      { node := CExpr.identE 4 "y", parentKind := PKind.otherParent,
        isWithinCallExpressionExpression := false } = none ∧
    visitNodeCheck defaultOptions innerConstSem [exampleCallback]
      { node := CExpr.identE 4 "y", parentKind := PKind.otherParent,
        isWithinCallExpressionExpression := false } = [] :=
  c3_declaration_inside_outermost_callback_safe defaultOptions innerConstSem
    exampleCallback []
    { node := CExpr.identE 4 "y", parentKind := PKind.otherParent,
      isWithinCallExpressionExpression := false }
    { pos := 20, endPos := 25, hasReadonlyModifier := false,
      isConstDeclaration := true, isWithinParameterDeclaration := false,
      isImportSpecifier := false, isNamespaceImport := false }
    rfl rfl (by decide)

/-- C4 counterexample: an identifier that is an argument (not the
target) of a constructor call, resolving to a mutable non-parameter
non-import binding declared outside the callback, occupies none of the
claim's exempt positions, yet the code reports nothing: the
`isNewExpression(node.parent)` check exempts every direct child of a
`new` expression, arguments included. -/
theorem c4_new_expression_argument_counterexample :
    outerLetSem.findDeclaration 3 =
      some { pos := 5, endPos := 8, hasReadonlyModifier := false,
             isConstDeclaration := false, isWithinParameterDeclaration := false,
             isImportSpecifier := false, isNamespaceImport := false } ∧
    isWithinClosure
      { pos := 5, endPos := 8, hasReadonlyModifier := false,
        isConstDeclaration := false, isWithinParameterDeclaration := false,
        isImportSpecifier := false, isNamespaceImport := false } exampleCallback = false ∧
    visitNodeCheck defaultOptions outerLetSem [exampleCallback]
      { node := CExpr.identE 3 "x", parentKind := PKind.newExprParent false,
        isWithinCallExpressionExpression := false } = [] := by
  refine ⟨rfl, by decide, ?_⟩
  rfl

/-- C4 (amended): an identifier referenced inside a callback that
resolves to a mutable (non-const, non-import, non-parameter-exempt)
binding declared outside the outermost callback's span and that
occupies none of the code's exempt positions (any child of a qualified
name, instanceof-constructor operand, call callee, template tag, any
direct child of a constructor call - target or argument -, type
reference) falls through every Safe branch of the root-safety test and
exactly one capture violation is reported at that reference node. -/
theorem c4_mutable_outer_capture_reported
    (o : Options) (sem : Sem) (cb : Callback) (rest : List Callback)
    (nid : Nat) (tx : String) (pk : PKind) (called : Bool) (d : Decl)
    (hNotPA : pk.isPropertyAccessParent = false)
    (hNotQual : pk.isQualifiedNameParent = false)
    (hNotInst : isInstanceofCtor pk = false)
    (hNotCallee : pk.isCallCalleePosition = false)
    (hNotTag : pk.isTaggedTagPosition = false)
    (hNotNew : pk.isNewExpressionParent = false)
    (hNotType : pk.isTypeReferenceParent = false)
    (hResolve : sem.findDeclaration nid = some d)
    (hOutside : isWithinClosure d cb = false)
    (hNotParam : (o.allowParameters && d.isWithinParameterDeclaration) = false)
    (hNotConst : d.isConstDeclaration = false)
    (hNotImport : d.isImportSpecifier = false)
    (hNotNs : d.isNamespaceImport = false) :
    isUnsafe o sem cb
      { node := CExpr.identE nid tx, parentKind := pk,
        isWithinCallExpressionExpression := called } = some (CExpr.identE nid tx) ∧
    visitNodeCheck o sem (cb :: rest)
      { node := CExpr.identE nid tx, parentKind := pk,
        isWithinCallExpressionExpression := called } = [CExpr.identE nid tx] := by
  have hU : isUnsafe o sem cb
      { node := CExpr.identE nid tx, parentKind := pk,
        isWithinCallExpressionExpression := called } = some (CExpr.identE nid tx) := by
    rw [isUnsafe_bare o sem cb _ hNotPA]
    rw [isUnsafeRoot]
    dsimp only [CExpr.nodeId]
    rw [if_neg (by rw [hNotQual]; exact Bool.false_ne_true)]
    rw [if_neg (by rw [hNotInst]; exact Bool.false_ne_true)]
    rw [hResolve]
    dsimp only
    rw [if_neg (by rw [hOutside]; exact Bool.false_ne_true)]
    rw [if_neg (by rw [hNotParam]; exact Bool.false_ne_true)]
    rw [if_neg (by rw [hNotCallee]; exact Bool.false_ne_true)]
    rw [if_neg (by rw [hNotTag]; exact Bool.false_ne_true)]
    rw [if_neg (by rw [hNotNew]; exact Bool.false_ne_true)]
    rw [if_neg (by rw [hNotType]; exact Bool.false_ne_true)]
    rw [if_neg (by rw [hNotConst]; exact Bool.false_ne_true)]
    rw [if_neg (by rw [hNotImport]; exact Bool.false_ne_true)]
    rw [if_neg (by rw [hNotNs]; exact Bool.false_ne_true)]
  refine ⟨hU, ?_⟩
  rw [visitNodeCheck]
  dsimp only
  rw [if_pos (by rw [isIdentifierNode]; rfl)]
  rw [hU]

/-- C4 witness (Scenario A): `x` (node 3) is a mutable binding declared
at position 5, outside the callback spanning 10..50, in no exempt
position: exactly one violation, at `x`. -/
theorem c4_mutable_outer_capture_reported_witness :
    isUnsafe defaultOptions outerLetSem exampleCallback
      { node := CExpr.identE 3 "x", parentKind := PKind.otherParent,
        isWithinCallExpressionExpression := false } = some (CExpr.identE 3 "x") ∧
    visitNodeCheck defaultOptions outerLetSem [exampleCallback]
      { node := CExpr.identE 3 "x", parentKind := PKind.otherParent,
        isWithinCallExpressionExpression := false } = [CExpr.identE 3 "x"] :=
  c4_mutable_outer_capture_reported defaultOptions outerLetSem exampleCallback []
    3 "x" PKind.otherParent false
    { pos := 5, endPos := 8, hasReadonlyModifier := false,
      isConstDeclaration := false, isWithinParameterDeclaration := false,
      isImportSpecifier := false, isNamespaceImport := false }
    rfl rfl rfl rfl rfl rfl rfl rfl (by decide) rfl rfl rfl rfl

/-- C5: in chain classification, a resolved member carrying the
readonly modifier is Safe before the implicit-receiver gating is
consulted: the result is none for every configuration, in particular
for a `this.member` property read with allowProperties = false. -/
theorem c5_readonly_member_safe
    (o : Options) (sem : Sem) (cb : Callback) (site : RefSite)
    (pa : CExpr) (g : Bool) (d : Decl)
    (hpk : site.parentKind = PKind.propAccessParent pa g)
    (hResolve : sem.findDeclaration site.node.nodeId = some d)
    (hRo : d.hasReadonlyModifier = true) :
    isUnsafe o sem cb site = none := by
  rw [isUnsafe, hpk]
  dsimp only
  cases hleaf : isPropertyAccessExpressionLeaf site.node.nodeId (PKind.propAccessParent pa g) with
  | false => simp
  | true =>
    rw [if_neg (by simp)]
    rw [hResolve]
    dsimp only
    rw [if_pos hRo]

/-- C5 witness (Scenario C): `this.v` where `v` resolves to a readonly
member, with allowProperties = false and allowMethods = false: Safe. -/
theorem c5_readonly_member_safe_witness :
    isUnsafe { allowMethods := false, allowParameters := true, allowProperties := false }
      readonlyMemberSem exampleCallback
      { node := CExpr.identE 6 "v",
        parentKind := PKind.propAccessParent
          (CExpr.propAccess 5 (CExpr.thisE 4) 6 "v") false,
        isWithinCallExpressionExpression := false } = none :=
  c5_readonly_member_safe
    { allowMethods := false, allowParameters := true, allowProperties := false }
    readonlyMemberSem exampleCallback
    { node := CExpr.identE 6 "v",
      parentKind := PKind.propAccessParent
        (CExpr.propAccess 5 (CExpr.thisE 4) 6 "v") false,
      isWithinCallExpressionExpression := false }
    (CExpr.propAccess 5 (CExpr.thisE 4) 6 "v") false
    { pos := 2, endPos := 4, hasReadonlyModifier := true,
      isConstDeclaration := false, isWithinParameterDeclaration := false,
      isImportSpecifier := false, isNamespaceImport := false }
    rfl rfl rfl


/-! ### Chain lemmas -/

theorem knownGlobalRegExpTest_iff_mem (s : String) :
    knownGlobalRegExpTest s = true ↔ s ∈ knownGlobals := by
  rw [knownGlobalRegExpTest, List.any_eq_true]
  constructor
  · rintro ⟨g, hg, he⟩
    have hgs : g = s := by simpa using he
    rwa [← hgs]
  · intro hs
    exact ⟨s, hs, by simp⟩

theorem leaf_false_of_grand_true (nodeId : Nat) (pa : CExpr) :
    isPropertyAccessExpressionLeaf nodeId (PKind.propAccessParent pa true) = false := by
  cases pa with
  | propAccess b ff bId bT => exact Bool.and_false _
  | thisE a => rfl
  | identE a t => rfl
  | otherE a => rfl

theorem isUnsafe_not_leaf (o : Options) (sem : Sem) (cb : Callback) (site : RefSite)
    (pa : CExpr) (g : Bool)
    (hpk : site.parentKind = PKind.propAccessParent pa g)
    (hleaf : isPropertyAccessExpressionLeaf site.node.nodeId
      (PKind.propAccessParent pa g) = false) :
    isUnsafe o sem cb site = none := by
  rw [isUnsafe, hpk]
  dsimp only
  simp [hleaf]

theorem visitNodeCheck_not_leaf (o : Options) (sem : Sem) (stack : List Callback)
    (site : RefSite) (pa : CExpr) (g : Bool)
    (hpk : site.parentKind = PKind.propAccessParent pa g)
    (hleaf : isPropertyAccessExpressionLeaf site.node.nodeId
      (PKind.propAccessParent pa g) = false) :
    visitNodeCheck o sem stack site = [] := by
  cases stack with
  | nil => rfl
  | cons cb rest =>
    exact visitNodeCheck_of_none o sem cb rest site
      (isUnsafe_not_leaf o sem cb site pa g hpk hleaf)

theorem visitNodeCheck_not_ref (o : Options) (sem : Sem) (stack : List Callback)
    (site : RefSite) (h : (isIdentifierNode site.node || isThis site.node) = false) :
    visitNodeCheck o sem stack site = [] := by
  cases stack with
  | nil => rfl
  | cons cb rest =>
    rw [visitNodeCheck]
    rw [if_neg (by simp [h])]

theorem chainSites_true_skipped (o : Options) (sem : Sem) (stack : List Callback)
    (calledOf : Nat → Bool) :
    ∀ (e : CExpr) (site : RefSite), site ∈ chainSites calledOf true e →
      visitNodeCheck o sem stack site = [] := by
  intro e
  induction e with
  | thisE a =>
    intro site h
    simp [chainSites] at h
  | identE a t =>
    intro site h
    simp [chainSites] at h
  | otherE a =>
    intro site h
    simp [chainSites] at h
  | propAccess j f mId mT ihf =>
    intro site h
    cases f with
    | propAccess b ff bId bT =>
      rw [chainSites] at h
      rcases List.mem_append.mp h with h1 | h2
      · exact ihf site h1
      · rw [List.mem_singleton.mp h2]
        exact visitNodeCheck_not_leaf o sem stack _ _ true rfl
          (leaf_false_of_grand_true _ _)
    | thisE a =>
      rw [chainSites] at h
      · rcases List.mem_append.mp h with h1 | h2
        · rw [List.mem_singleton.mp h1]
          exact visitNodeCheck_not_leaf o sem stack _ _ true rfl
            (leaf_false_of_grand_true _ _)
        · rw [List.mem_singleton.mp h2]
          exact visitNodeCheck_not_leaf o sem stack _ _ true rfl
            (leaf_false_of_grand_true _ _)
      · intro _ _ _ _ hc
        cases hc
    | identE a t =>
      rw [chainSites] at h
      · rcases List.mem_append.mp h with h1 | h2
        · rw [List.mem_singleton.mp h1]
          exact visitNodeCheck_not_leaf o sem stack _ _ true rfl
            (leaf_false_of_grand_true _ _)
        · rw [List.mem_singleton.mp h2]
          exact visitNodeCheck_not_leaf o sem stack _ _ true rfl
            (leaf_false_of_grand_true _ _)
      · intro _ _ _ _ hc
        cases hc
    | otherE a =>
      rw [chainSites] at h
      · rcases List.mem_append.mp h with h1 | h2
        · rw [List.mem_singleton.mp h1]
          exact visitNodeCheck_not_leaf o sem stack _ _ true rfl
            (leaf_false_of_grand_true _ _)
        · rw [List.mem_singleton.mp h2]
          exact visitNodeCheck_not_leaf o sem stack _ _ true rfl
            (leaf_false_of_grand_true _ _)
      · intro _ _ _ _ hc
        cases hc

theorem flatten_map_eq_nil {α β : Type} (f : α → List β) :
    ∀ (xs : List α), (∀ x ∈ xs, f x = []) → (xs.map f).flatten = [] := by
  intro xs h
  induction xs with
  | nil => rfl
  | cons x xs ih =>
    rw [List.map_cons, List.flatten_cons, h x (List.mem_cons_self x xs),
      ih (fun y hy => h y (List.mem_cons_of_mem _ hy))]
    rfl


/-- C6: for a member-access chain visited inside a callback,
classification happens exactly once, at the chain's outermost (leaf)
property step: the failures produced by all the identifier/this sites
of the chain equal the failures of the leaf site alone (every non-leaf
site is skipped), so one chain yields at most one violation. -/
theorem c6_chain_classified_once_at_leaf
    (o : Options) (sem : Sem) (stack : List Callback) (calledOf : Nat → Bool)
    (i nId : Nat) (e : CExpr) (nT : String)
    (hRoot : (descendPropertyAccess e).nodeId ≠ nId) :
    ((chainSites calledOf false (CExpr.propAccess i e nId nT)).map
        (visitNodeCheck o sem stack)).flatten =
      visitNodeCheck o sem stack
        { node := CExpr.identE nId nT,
          parentKind := PKind.propAccessParent (CExpr.propAccess i e nId nT) false,
          isWithinCallExpressionExpression := calledOf nId } ∧
    (((chainSites calledOf false (CExpr.propAccess i e nId nT)).map
        (visitNodeCheck o sem stack)).flatten).length ≤ 1 := by
  have hmain : ((chainSites calledOf false (CExpr.propAccess i e nId nT)).map
      (visitNodeCheck o sem stack)).flatten =
      visitNodeCheck o sem stack
        { node := CExpr.identE nId nT,
          parentKind := PKind.propAccessParent (CExpr.propAccess i e nId nT) false,
          isWithinCallExpressionExpression := calledOf nId } := by
    cases e with
    | propAccess b ff bId bT =>
      rw [chainSites, List.map_append, List.flatten_append,
        flatten_map_eq_nil _ _
          (fun s hs => chainSites_true_skipped o sem stack calledOf _ s hs)]
      simp
    | thisE a =>
      rw [chainSites]
      · rw [List.map_append, List.flatten_append]
        have hrs : visitNodeCheck o sem stack
            { node := CExpr.thisE a,
              parentKind := PKind.propAccessParent
                (CExpr.propAccess i (CExpr.thisE a) nId nT) false,
              isWithinCallExpressionExpression := calledOf (CExpr.thisE a).nodeId } = [] := by
          apply visitNodeCheck_not_leaf o sem stack _ _ false rfl
          rw [isPropertyAccessExpressionLeaf]
          dsimp only [CExpr.nodeId]
          have ha : (a == nId) = false := beq_eq_false_iff_ne.mpr hRoot
          rw [ha]
          rfl
        simp only [List.map_cons, List.map_nil, List.flatten_cons, List.flatten_nil,
          List.append_nil]
        rw [hrs]
        simp
      · intro _ _ _ _ hc
        cases hc
    | identE a t =>
      rw [chainSites]
      · rw [List.map_append, List.flatten_append]
        have hrs : visitNodeCheck o sem stack
            { node := CExpr.identE a t,
              parentKind := PKind.propAccessParent
                (CExpr.propAccess i (CExpr.identE a t) nId nT) false,
              isWithinCallExpressionExpression :=
                calledOf (CExpr.identE a t).nodeId } = [] := by
          apply visitNodeCheck_not_leaf o sem stack _ _ false rfl
          rw [isPropertyAccessExpressionLeaf]
          dsimp only [CExpr.nodeId]
          have ha : (a == nId) = false := beq_eq_false_iff_ne.mpr hRoot
          rw [ha]
          rfl
        simp only [List.map_cons, List.map_nil, List.flatten_cons, List.flatten_nil,
          List.append_nil]
        rw [hrs]
        simp
      · intro _ _ _ _ hc
        cases hc
    | otherE a =>
      rw [chainSites]
      · rw [List.map_append, List.flatten_append]
        have hrs : visitNodeCheck o sem stack
            { node := CExpr.otherE a,
              parentKind := PKind.propAccessParent
                (CExpr.propAccess i (CExpr.otherE a) nId nT) false,
              isWithinCallExpressionExpression :=
                calledOf (CExpr.otherE a).nodeId } = [] :=
          visitNodeCheck_not_ref o sem stack _ rfl
        simp only [List.map_cons, List.map_nil, List.flatten_cons, List.flatten_nil,
          List.append_nil]
        rw [hrs]
        simp
      · intro _ _ _ _ hc
        cases hc
  refine ⟨hmain, ?_⟩
  rw [hmain]
  exact visitNodeCheck_length_le_one o sem stack _

/-- C6 witness: the chain `x.a.b` (nodes 1, 2, 3): only the leaf name
`b` is classified; the whole chain produces the leaf site's failures,
at most one. -/
theorem c6_chain_classified_once_at_leaf_witness :
    ((chainSites (fun _ => false) false
        (CExpr.propAccess 11 (CExpr.propAccess 10 (CExpr.identE 1 "x") 2 "a") 3 "b")).map
        (visitNodeCheck defaultOptions outerLetSem [exampleCallback])).flatten =
      visitNodeCheck defaultOptions outerLetSem [exampleCallback]
        { node := CExpr.identE 3 "b",
          parentKind := PKind.propAccessParent
            (CExpr.propAccess 11 (CExpr.propAccess 10 (CExpr.identE 1 "x") 2 "a") 3 "b")
            false,
          isWithinCallExpressionExpression := false } ∧
    (((chainSites (fun _ => false) false
        (CExpr.propAccess 11 (CExpr.propAccess 10 (CExpr.identE 1 "x") 2 "a") 3 "b")).map
        (visitNodeCheck defaultOptions outerLetSem [exampleCallback])).flatten).length ≤ 1 :=
  c6_chain_classified_once_at_leaf defaultOptions outerLetSem [exampleCallback]
    (fun _ => false) 11 3 (CExpr.propAccess 10 (CExpr.identE 1 "x") 2 "a") "b" (by decide)

/-- C9: the ambient-global allow-list is the fixed set Array, BigInt,
Date, Intl, JSON, Math, Number, Object, Promise, Proxy, Reflect,
String, Symbol, console; the anchored regular expression accepts a root
text exactly when it equals one of these names (no prefix or substring
matches), and a chain whose extracted root is an identifier with such a
text is classified Safe under every configuration. -/
theorem c9_known_global_allowlist :
    (∀ s : String, knownGlobalRegExpTest s = true ↔
      (s = "Array" ∨ s = "BigInt" ∨ s = "Date" ∨ s = "Intl" ∨ s = "JSON" ∨ s = "Math" ∨
       s = "Number" ∨ s = "Object" ∨ s = "Promise" ∨ s = "Proxy" ∨ s = "Reflect" ∨
       s = "String" ∨ s = "Symbol" ∨ s = "console")) ∧
    (∀ (o : Options) (sem : Sem) (cb : Callback) (site : RefSite) (pa : CExpr) (g : Bool)
       (rid : Nat) (rtext : String),
      site.parentKind = PKind.propAccessParent pa g →
      getPropertyAccessExpressionRoot pa = some (CExpr.identE rid rtext) →
      knownGlobalRegExpTest rtext = true →
      isUnsafe o sem cb site = none) := by
  constructor
  · intro s
    rw [knownGlobalRegExpTest_iff_mem]
    simp [knownGlobals]
  · intro o sem cb site pa g rid rtext hpk hroot hglob
    rw [isUnsafe, hpk]
    dsimp only
    cases hleaf : isPropertyAccessExpressionLeaf site.node.nodeId
        (PKind.propAccessParent pa g) with
    | false => simp
    | true =>
      rw [if_neg (by simp)]
      cases hfd : sem.findDeclaration site.node.nodeId with
      | none => rfl
      | some d =>
        dsimp only
        by_cases hro : d.hasReadonlyModifier = true
        · rw [if_pos hro]
        · rw [if_neg hro]
          by_cases hen : sem.isEnumLiteralTypeAt site.node.nodeId = true
          · rw [if_pos hen]
          · rw [if_neg hen, hroot]
            dsimp only [isThis, CExpr.getText]
            rw [if_neg (by simp)]
            rw [if_pos hglob]

/-- C9 witness: `Math.random()` - the chain root text "Math" is in the
allow-list (while "ArrayBuffer" is not), and the chain is Safe. -/
theorem c9_known_global_allowlist_witness :
    knownGlobalRegExpTest "Math" = true ∧
    knownGlobalRegExpTest "ArrayBuffer" = false ∧
    isUnsafe defaultOptions outerLetSem exampleCallback
      { node := CExpr.identE 6 "random",
        parentKind := PKind.propAccessParent
          (CExpr.propAccess 5 (CExpr.identE 4 "Math") 6 "random") false,
        isWithinCallExpressionExpression := true } = none := by
  refine ⟨(c9_known_global_allowlist.1 "Math").mpr (by decide), by decide, ?_⟩
  exact c9_known_global_allowlist.2 defaultOptions outerLetSem exampleCallback
    _ (CExpr.propAccess 5 (CExpr.identE 4 "Math") 6 "random") false 4 "Math"
    rfl rfl ((c9_known_global_allowlist.1 "Math").mpr (by decide))

/-- C10: a member-access chain whose innermost expression is neither
`this` nor a plain identifier (e.g. a call result or element access)
yields no report: root extraction returns none and the chain is
classified Safe on every path. -/
theorem c10_non_identifier_chain_root_safe
    (i nId : Nat) (e : CExpr) (nT : String)
    (hThis : isThis (descendPropertyAccess e) = false)
    (hIdent : isIdentifierNode (descendPropertyAccess e) = false) :
    getPropertyAccessExpressionRoot (CExpr.propAccess i e nId nT) = none ∧
    (∀ (o : Options) (sem : Sem) (cb : Callback) (node : CExpr) (g : Bool) (c : Bool),
      isUnsafe o sem cb
        { node := node,
          parentKind := PKind.propAccessParent (CExpr.propAccess i e nId nT) g,
          isWithinCallExpressionExpression := c } = none) := by
  have hroot : getPropertyAccessExpressionRoot (CExpr.propAccess i e nId nT) = none := by
    rw [getPropertyAccessExpressionRoot]
    rw [hThis, hIdent]
    rfl
  refine ⟨hroot, ?_⟩
  intro o sem cb node g c
  rw [isUnsafe]
  dsimp only
  cases hleaf : isPropertyAccessExpressionLeaf node.nodeId
      (PKind.propAccessParent (CExpr.propAccess i e nId nT) g) with
  | false => simp
  | true =>
    rw [if_neg (by simp)]
    cases hfd : sem.findDeclaration node.nodeId with
    | none => rfl
    | some d =>
      dsimp only
      by_cases hro : d.hasReadonlyModifier = true
      · rw [if_pos hro]
      · rw [if_neg hro]
        by_cases hen : sem.isEnumLiteralTypeAt node.nodeId = true
        · rw [if_pos hen]
        · rw [if_neg hen, hroot]

/-- C10 witness: the chain `f().c` (node 7 is a call result): root
extraction yields none and the leaf-name classification yields none. -/
theorem c10_non_identifier_chain_root_safe_witness :
    getPropertyAccessExpressionRoot (CExpr.propAccess 8 (CExpr.otherE 7) 9 "c") = none ∧
    isUnsafe defaultOptions outerLetSem exampleCallback
      { node := CExpr.identE 9 "c",
        parentKind := PKind.propAccessParent (CExpr.propAccess 8 (CExpr.otherE 7) 9 "c")
          false,
        isWithinCallExpressionExpression := false } = none := by
  have h := c10_non_identifier_chain_root_safe 8 9 (CExpr.otherE 7) "c" rfl rfl
  exact ⟨h.1, h.2 defaultOptions outerLetSem exampleCallback (CExpr.identE 9 "c")
    false false⟩

end TslintEtc
